import Mathlib

/-!
Verification of the KMRL document-management backend's ingestion,
enrichment, search and teardown pipeline.

The development shallowly embeds:
  - the upload controller (DocumentController.uploadDocuments and the
    read-side handlers in src/controllers/DocumentController.ts),
  - the synchronous processing queue
    (src/kmrl-backend/src/services/ProcessingQueue.ts, processDocument),
  - the AI enrichment client with its local fallbacks
    (src/services/AIService.ts: classifyDocument, generateSummary,
    fallbackClassification, fallbackSummary),
  - the storage helpers (src/utils/fileUpload.ts: DocumentProcessor),
  - the relational document store.  The DocumentModel source file is not
    part of the snapshot, so the store operations are modelled from the
    spec (section 4.2) together with the CHECK constraints that are in
    the snapshot (src/kmrl-backend/src/config/migration_v2.sql).

Machine integers do not occur on the embedded paths; confidences are
exact rationals, byte contents are lists of naturals, and all stateful
code is explicit state passing.
-/

namespace Kmrl

/-- Byte content of a stored file. -/
abbrev Bytes := List Nat

/-- The documents.processing_status enumeration. -/
inductive Status where
  | pending
  | processing
  | completed
  | failed
deriving DecidableEq, Repr

/-- One row of the documents table, restricted to the columns the
claims inspect.  Optional AI columns are NULL (none) until the pipeline
fills them. -/
structure Document where
  id : Nat
  filename : String
  original_filename : String
  file_size : Nat
  mime_type : String
  file_path : String
  project_id : Option Nat
  department : String
  uploaded_by : Nat
  urgency_level : String
  processing_status : Status
  ai_classification : Option String
  classification_confidence : Option ℚ
  ai_summary : Option String
  summary_confidence : Option ℚ
  ai_keywords : Option (List String)
deriving DecidableEq, Repr

/-- An authenticated request user (req.user), restricted to the fields
the document routes read. -/
structure User where
  id : Nat
  email : String
  department : String
  role : String
deriving DecidableEq, Repr

/-- One file of a multipart upload as multer hands it to the
controller (Express.Multer.File). -/
structure FileInfo where
  filename : String
  originalname : String
  size : Nat
  mimetype : String
  path : String
deriving DecidableEq, Repr

/-! ### File system

The on-disk state is an association list from path to byte content;
the first entry for a path wins, as fs lookups do. -/

abbrev FS := List (String × Bytes)

/-- fs.existsSync. -/
def fsExists (fs : FS) (p : String) : Bool :=
  fs.any (fun e => e.1 = p)

/-- fs.readFileSync, as an optional read. -/
def fsRead (fs : FS) (p : String) : Option Bytes :=
  (fs.find? (fun e => e.1 = p)).map (fun e => e.2)

/-- fs.renameSync: the destination is overwritten, the source entry is
removed.  A missing source leaves the state unchanged (the callers only
rename files they have just read). -/
def fsRename (fs : FS) (src dst : String) : FS :=
  match fsRead fs src with
  | none => fs
  | some b => (dst, b) :: fs.filter (fun e => e.1 ≠ src ∧ e.1 ≠ dst)

/-- fs.unlinkSync. -/
def fsUnlink (fs : FS) (p : String) : FS :=
  fs.filter (fun e => e.1 ≠ p)

/-! ### JavaScript string helpers used by the controllers -/

/-- String.prototype.toLowerCase, over the character list. -/
def sLower (s : String) : String :=
  String.mk (s.toList.map Char.toLower)

/-- String.prototype.trim: strip leading and trailing whitespace. -/
def sTrim (s : String) : String :=
  String.mk (((s.toList.dropWhile Char.isWhitespace).reverse.dropWhile
    Char.isWhitespace).reverse)

/-- Split a character list at separator characters, keeping empty
fields, as String.prototype.split with a single-character separator
does. -/
def splitListB (p : Char → Bool) : List Char → List (List Char)
  | [] => [[]]
  | c :: cs =>
    if p c then [] :: splitListB p cs
    else
      match splitListB p cs with
      | [] => [[c]]
      | t :: ts => (c :: t) :: ts

/-- String split at separator characters. -/
def sSplit (p : Char → Bool) (s : String) : List String :=
  (splitListB p s.toList).map String.mk

/-- String.prototype.substring n: drop the first n characters. -/
def sDrop (s : String) (n : Nat) : String :=
  String.mk (s.toList.drop n)

/-- Whether the first list is a leading segment of the second. -/
def leadsB (pat hay : List Char) : Bool :=
  match pat, hay with
  | [], _ => true
  | _ :: _, [] => false
  | p :: ps, h :: hs => p = h && leadsB ps hs

/-- Whether the first list occurs contiguously inside the second. -/
def infixB (pat hay : List Char) : Bool :=
  match hay with
  | [] => pat.isEmpty
  | _ :: hs => leadsB pat hay || infixB pat hs

/-- JavaScript String.prototype.includes: contiguous-substring test. -/
def sIncludes (hay pat : String) : Bool :=
  infixB pat.toList hay.toList

/-- path.basename: the final path component, ignoring trailing
separators. -/
def jsBasename (p : String) : String :=
  let cs := (p.toList.reverse.dropWhile (fun c => c = '/')).reverse
  String.mk (cs.reverse.takeWhile (fun c => c ≠ '/')).reverse

/-- path.extname: from the last dot of the basename to the end; empty
when the basename has no dot or only a leading dot. -/
def jsExtname (p : String) : String :=
  let cs := (jsBasename p).toList
  let afterRev := cs.reverse.takeWhile (fun c => c ≠ '.')
  if afterRev.length = cs.length then ""
  else if afterRev.length + 1 = cs.length ∧ cs.head? = some '.' then ""
  else "." ++ String.mk afterRev.reverse

/-- query.split(new RegExp "whitespace+") as applied to an already
trimmed query: the whitespace-separated non-empty tokens. -/
def jsSplitWS (s : String) : List String :=
  (sSplit (fun c => c.isWhitespace) s).filter (fun t => t ≠ "")

/-- JavaScript value || default for an optional number, where 0 is
falsy and also replaced by the default. -/
def jsOrQ (v : Option ℚ) (d : ℚ) : ℚ :=
  match v with
  | none => d
  | some x => if x = 0 then d else x

/-- JavaScript string || default: the empty string is falsy. -/
def jsOrStr (v d : String) : String :=
  if v = "" then d else v

/-- The decimal confidence literals of the source (0.85, 0.90, 0.60,
0.8), written as reduced fractions in constructor form so that closed
runs evaluate inside the kernel; they are proved equal to the decimal
literals in the theorem section below. -/
def q85 : ℚ := ⟨17, 20, by decide, by decide⟩

/-- The source literal 0.90. -/
def q90 : ℚ := ⟨9, 10, by decide, by decide⟩

/-- The source literal 0.60. -/
def q60 : ℚ := ⟨3, 5, by decide, by decide⟩

/-- The source literal 0.8. -/
def q80 : ℚ := ⟨4, 5, by decide, by decide⟩

/-- documentType.replace underscore-to-space replaces only the first
occurrence, as the String.prototype.replace of a plain string does. -/
def replaceFirstUnderscore (s : String) : String :=
  String.mk (go s.toList)
where
  go : List Char → List Char
    | [] => []
    | c :: cs => if c = '_' then ' ' :: cs else c :: go cs

/-! ### AI enrichment client (src/services/AIService.ts)

The external service is an oracle: a call either yields a parsed
success response, or fails (transport error, timeout, or a
success=false body — all of which the client turns into the same local
fallback). -/

/-- A successful classification response body.  document_type models
the coalesced category-or-document_type-or-classification field the
client extracts. -/
structure ClassifyResp where
  document_type : String
  confidence : ℚ
  summary : Option String
  keywords : Option (List String)
deriving DecidableEq, Repr

/-- A successful summarization response body. -/
structure SummaryResp where
  summary : String
  keywords : Option (List String)
  confidence : Option ℚ
deriving DecidableEq, Repr

/-- The AIProcessingResult shape the classify operation returns to the
pipeline.  The extracted-entities map is carried by the source but
never read by any embedded consumer, so it is left out. -/
structure AIProcessingResult where
  document_type : String
  confidence : ℚ
  summary : String
  keywords : List String
  language : Option String
  key_points : Option (List String)
  compliance_flags : Option (List String)
  department_relevance : Option (List String)
deriving DecidableEq, Repr

/-- The result shape of generateSummary. -/
structure SummaryOut where
  summary : String
  keywords : List String
  confidence : ℚ
deriving DecidableEq, Repr

/-- AIService.fallbackClassification (src/routes/documents.ts region,
lines 681-810): the keyword-rule classifier over the lower-cased
basename, extension and text content.  The optional department
parameter is never passed by any caller in the snapshot and is
omitted. -/
def fallbackClassification (text filePath : String) : AIProcessingResult :=
  let filename := sLower (jsBasename filePath)
  let extension := sLower (sDrop (jsExtname filePath) 1)
  let content := sLower text
  let r :
      String × ℚ × List String × List String × List String :=
    if sIncludes filename "maintenance" ∨ sIncludes filename "inspection" ∨
        sIncludes filename "repair" ∨ sIncludes filename "operation" ∨
        sIncludes filename "schedule" ∨ sIncludes content "maintenance" ∨
        sIncludes content "operation" ∨ extension = "dwg" ∨ extension = "dxf" then
      ("maintenance&operation", q85,
        ["Maintenance activity", "Operational procedure", "Equipment status",
          "Technical drawing"],
        [], ["MAINTENANCE", "OPERATIONS", "METRO_ENGINEERING"])
    else if sIncludes filename "bill" ∨ sIncludes filename "invoice" ∨
        sIncludes filename "purchase" ∨ sIncludes filename "budget" ∨
        sIncludes filename "financial" ∨ sIncludes filename "audit" ∨
        sIncludes content "payment" ∨ sIncludes content "procurement" ∨
        sIncludes content "budget" ∨ extension = "xlsx" then
      ("finance&procurement", q85,
        ["Financial transaction", "Purchase order", "Budget allocation",
          "Vendor payment"],
        [], ["FINANCE", "PROCUREMENT"])
    else if sIncludes filename "compliance" ∨ sIncludes filename "regulation" ∨
        sIncludes filename "standard" ∨ sIncludes filename "audit" ∨
        sIncludes content "regulation" ∨ sIncludes content "mandatory" ∨
        sIncludes content "compliance" ∨ sIncludes content "standard" then
      ("compliance&regulatory", q90,
        ["Regulatory requirement", "Compliance standard", "Legal obligation",
          "Audit findings"],
        ["regulation", "compliance", "mandatory"],
        ["LEGAL", "ADMINISTRATION", "QUALITY_ASSURANCE"])
    else if sIncludes filename "safety" ∨ sIncludes filename "training" ∨
        sIncludes filename "hazard" ∨ sIncludes filename "incident" ∨
        sIncludes filename "emergency" ∨ sIncludes content "safety" ∨
        sIncludes content "training" ∨ sIncludes content "emergency" then
      ("safety&training", q90,
        ["Safety protocol", "Training material", "Hazard identification",
          "Emergency procedure"],
        ["safety", "mandatory"], ["SAFETY", "HR", "OPERATIONS"])
    else if sIncludes filename "hr" ∨ sIncludes filename "employee" ∨
        sIncludes filename "policy" ∨ sIncludes filename "staff" ∨
        sIncludes filename "personnel" ∨ sIncludes content "employee" ∨
        sIncludes content "policy" ∨ sIncludes content "personnel" then
      ("humanresources", q85,
        ["HR policy", "Employee guidelines", "Personnel management",
          "Organizational procedure"],
        [], ["HR", "ADMINISTRATION"])
    else if sIncludes filename "legal" ∨ sIncludes filename "contract" ∨
        sIncludes filename "agreement" ∨ sIncludes filename "board" ∨
        sIncludes filename "minutes" ∨ sIncludes filename "governance" ∨
        sIncludes content "contract" ∨ sIncludes content "board" ∨
        sIncludes content "legal" then
      ("legal&governance", q85,
        ["Legal analysis", "Contract terms", "Board decision",
          "Governance framework"],
        ["legal", "contract"], ["LEGAL", "ADMINISTRATION"])
    else
      ("general communication", q60,
        ["Document communication", "Information sharing",
          "General correspondence"],
        [], ["ADMINISTRATION"])
  let documentType := r.1
  let confidence := r.2.1
  let keyPoints := r.2.2.1
  let complianceFlags := r.2.2.2.1
  let departmentRelevance := r.2.2.2.2
  let hasMalayalam := content.toList.any (fun c => 0xD00 ≤ c.toNat ∧ c.toNat ≤ 0xD7F)
  let hasEnglish := content.toList.any
    (fun c => ('A' ≤ c ∧ c ≤ 'Z') ∨ ('a' ≤ c ∧ c ≤ 'z'))
  let detectedLanguage :=
    if content ≠ "" ∧ hasMalayalam ∧ hasEnglish then "mixed"
    else if content ≠ "" ∧ hasMalayalam then "malayalam"
    else "english"
  { document_type := documentType
    confidence := confidence
    summary := replaceFirstUnderscore documentType ++ " document: " ++ jsBasename filePath
    keywords := keyPoints.take 5
    language := some detectedLanguage
    key_points := some keyPoints
    compliance_flags := some complianceFlags
    department_relevance := some departmentRelevance }

/-- AIService.classifyDocument: extracts a success response, or falls
back to the local heuristic classifier on any failure; it never
throws. -/
def classifyDocument (resp : Option ClassifyResp) (text filePath : String) :
    AIProcessingResult :=
  match resp with
  | some r =>
    { document_type := r.document_type
      confidence := r.confidence
      summary := r.summary.getD ""
      keywords := r.keywords.getD []
      language := none
      key_points := none
      compliance_flags := none
      department_relevance := none }
  | none => fallbackClassification text filePath

/-- AIService.fallbackSummary at the only text argument the pipeline
ever passes (the empty string): every caller in the snapshot invokes
the summary path with text set to the empty string, which selects the
filename-based branch of fallbackSummary. -/
def fallbackSummaryEmptyText (filePath : String) : SummaryOut :=
  let filename := jsBasename filePath
  { summary := "Document summary for " ++ filename
    keywords := ["document", "file",
      jsOrStr ((sSplit (fun c => c = '.') filename).headD "") "unknown"]
    confidence := q60 }

/-- AIService.generateSummary: extracts a success response (with the
JavaScript or-defaults for keywords and confidence), or falls back to
the local summary; it never throws.  The document_type argument only
shapes the request payload, not the response handling, and is
omitted. -/
def generateSummary (resp : Option SummaryResp) (filePath : String) : SummaryOut :=
  match resp with
  | some r =>
    { summary := r.summary
      keywords := r.keywords.getD []
      confidence := jsOrQ r.confidence q80 }
  | none => fallbackSummaryEmptyText filePath

/-! ### Document record store and pipeline state

The DocumentModel source file is not part of the snapshot; its
operations are modelled from the spec (section 4.2: typed CRUD, atomic
per-record writes, explicit not-found outcomes), guarded by the CHECK
constraints of migration_v2.sql, which is in the snapshot.  The
pipeline state carries the file system, the table, and three oracles:
the queued answers of the external classification and summarization
endpoints (one entry consumed per call, an exhausted queue behaving as
an unreachable service) and the queued fault decisions of the record
store (one entry consumed per write, an exhausted queue behaving as a
healthy store). -/

structure PState where
  fs : FS
  store : List Document
  nextId : Nat
  classifyQ : List (Option ClassifyResp)
  summaryQ : List (Option SummaryResp)
  dbQ : List Bool
deriving Repr

/-- The partial column set of one updateAIProcessingResults call; a
none field is not written. -/
structure AIUpdate where
  processing_status : Option Status
  ai_classification : Option String
  classification_confidence : Option ℚ
  ai_summary : Option String
  summary_confidence : Option ℚ
  ai_keywords : Option (List String)
deriving DecidableEq, Repr

/-- An update that only moves processing_status. -/
def statusOnly (s : Status) : AIUpdate :=
  { processing_status := some s
    ai_classification := none
    classification_confidence := none
    ai_summary := none
    summary_confidence := none
    ai_keywords := none }

/-- The CHECK constraints of migration_v2.sql: both confidence columns
must lie in the closed unit interval whenever written. -/
def confOK (u : AIUpdate) : Bool :=
  (match u.classification_confidence with
    | none => true
    | some c => decide (0 ≤ c ∧ c ≤ 1)) &&
  (match u.summary_confidence with
    | none => true
    | some c => decide (0 ≤ c ∧ c ≤ 1))

/-- Merge an accepted update into a row. -/
def applyUpdate (d : Document) (u : AIUpdate) : Document :=
  { d with
    processing_status := u.processing_status.getD d.processing_status
    ai_classification :=
      match u.ai_classification with
      | none => d.ai_classification
      | some v => some v
    classification_confidence :=
      match u.classification_confidence with
      | none => d.classification_confidence
      | some v => some v
    ai_summary :=
      match u.ai_summary with
      | none => d.ai_summary
      | some v => some v
    summary_confidence :=
      match u.summary_confidence with
      | none => d.summary_confidence
      | some v => some v
    ai_keywords :=
      match u.ai_keywords with
      | none => d.ai_keywords
      | some v => some v }

/-- DocumentModel.findById.  Modelled from the spec: single-record
lookup with an explicit no-such-record outcome. -/
def storeFind (store : List Document) (id : Nat) : Option Document :=
  store.find? (fun d => d.id = id)

/-- Consume one record-store fault decision; an exhausted queue means
the write goes through. -/
def takeDb (st : PState) : Bool × PState :=
  (st.dbQ.headD false, { st with dbQ := st.dbQ.tail })

/-- Consume one queued classification answer; an exhausted queue means
the external call fails (and the client falls back). -/
def takeClassify (st : PState) : Option ClassifyResp × PState :=
  (st.classifyQ.headD none, { st with classifyQ := st.classifyQ.tail })

/-- Consume one queued summarization answer. -/
def takeSummary (st : PState) : Option SummaryResp × PState :=
  (st.summaryQ.headD none, { st with summaryQ := st.summaryQ.tail })

/-- DocumentModel.updateAIProcessingResults.  Modelled from the spec:
one atomic per-record write keyed by id, rejected when the store faults
or when a written confidence violates the CHECK constraints of
migration_v2.sql.  Returns the new state, whether the write succeeded,
and the processing_status value the write stored, if any. -/
def dbUpdate (st : PState) (id : Nat) (u : AIUpdate) :
    PState × Bool × List Status :=
  let t := takeDb st
  if t.1 then (t.2, false, [])
  else if ¬ confOK u then (t.2, false, [])
  else
    ({ t.2 with
        store := t.2.store.map (fun d => if d.id = id then applyUpdate d u else d) },
      true,
      match u.processing_status with
      | none => []
      | some s => [s])

/-- DocumentModel.create.  Modelled from the spec: inserts one row with
a fresh identifier, carrying the documentData the upload controller
builds (processing_status pending, empty AI columns). -/
def dbCreate (st : PState) (f : FileInfo) (projectId : Option Nat)
    (department : String) (uploadedBy : Nat) (urgency : String) :
    PState × Option Document :=
  let t := takeDb st
  if t.1 then (t.2, none)
  else
    let doc : Document :=
      { id := t.2.nextId
        filename := f.filename
        original_filename := f.originalname
        file_size := f.size
        mime_type := f.mimetype
        file_path := f.path
        project_id := projectId
        department := department
        uploaded_by := uploadedBy
        urgency_level := jsOrStr urgency "routine"
        processing_status := Status.pending
        ai_classification := none
        classification_confidence := none
        ai_summary := none
        summary_confidence := none
        ai_keywords := none }
    ({ t.2 with store := t.2.store ++ [doc], nextId := t.2.nextId + 1 }, some doc)

/-! ### Processing queue (src/kmrl-backend/src/services/ProcessingQueue.ts)

processDocument is the same-request synchronous pipeline run.  The
result records the new state, whether the run completed without
throwing, and the sequence of processing_status values the run actually
stored. -/

/-- The column set the happy-path write of processDocument stores:
classification and summary results plus status completed. -/
def resultsUpdate (clsRes : AIProcessingResult) (sumRes : SummaryOut) : AIUpdate :=
  { processing_status := some Status.completed
    ai_classification := some clsRes.document_type
    classification_confidence := some clsRes.confidence
    ai_summary := some sumRes.summary
    summary_confidence := some sumRes.confidence
    ai_keywords := some sumRes.keywords }

/-- The column set the catch-branch fallback write stores; it carries
no summary confidence. -/
def fallbackUpdate (fb : AIProcessingResult) : AIUpdate :=
  { processing_status := some Status.completed
    ai_classification := some fb.document_type
    classification_confidence := some fb.confidence
    ai_summary := some (jsOrStr fb.summary "")
    summary_confidence := none
    ai_keywords := some fb.keywords }

/-- The ml-queue directory the prepare step moves files into. -/
def mlQueueDir : String := "uploads/ml-queue"

/-- The destination prepareDocumentForMLProcessing renames a file
to. -/
def mlTarget (filePath : String) : String :=
  mlQueueDir ++ "/" ++ jsBasename filePath

/-- The catch branch of processDocument: mark the record failed, rerun
the classification client (whose internal fallback makes it total),
and overwrite the record with the fallback results and status
completed.  A failing failed-write rethrows. -/
def catchPath (documentId : Nat) (filePath : String) (st : PState) :
    PState × Bool × List Status :=
  let rF := dbUpdate st documentId (statusOnly Status.failed)
  if ¬ rF.2.1 then (rF.1, false, rF.2.2)
  else
    let c := takeClassify rF.1
    let fb := classifyDocument c.1 "" filePath
    let rC := dbUpdate c.2 documentId (fallbackUpdate fb)
    (rC.1, rC.2.1, rF.2.2 ++ rC.2.2)

/-- ProcessingQueue.processDocument: validate the file, hash it, move
it to the ml-queue directory, then mark processing, call the
classification and summarization clients (with text always the empty
string, as the source passes), and store the merged results as
completed; any store fault on the way diverts into the catch branch.
The boolean is false when the run throws (the upload controller's
per-file catch swallows that). -/
def processDocument (documentId : Nat) (filePath : String) (st : PState) :
    PState × Bool × List Status :=
  if ¬ fsExists st.fs filePath then (st, false, [])
  else if ((fsRead st.fs filePath).getD []).length = 0 then (st, false, [])
  else
    let st1 : PState := { st with fs := fsRename st.fs filePath (mlTarget filePath) }
    let r1 := dbUpdate st1 documentId (statusOnly Status.processing)
    if ¬ r1.2.1 then
      let rc := catchPath documentId filePath r1.1
      (rc.1, rc.2.1, r1.2.2 ++ rc.2.2)
    else
      let c := takeClassify r1.1
      let clsRes := classifyDocument c.1 "" filePath
      let s := takeSummary c.2
      let sumRes := generateSummary s.1 filePath
      let r4 := dbUpdate s.2 documentId (resultsUpdate clsRes sumRes)
      if r4.2.1 then (r4.1, true, r1.2.2 ++ r4.2.2)
      else
        let rc := catchPath documentId filePath r4.1
        (rc.1, rc.2.1, r1.2.2 ++ r4.2.2 ++ rc.2.2)

/-! ### Upload controller (DocumentController.uploadDocuments) -/

/-- The JSON shape of the upload response the claims inspect.  The
documents array carries the per-file snapshots taken at creation time,
as the source pushes them. -/
structure UploadResponse where
  status : Nat
  success : Bool
  message : String
  documents : List Document
deriving DecidableEq, Repr

/-- One iteration of the upload loop: create the row, run the
synchronous processing, and push the creation-time snapshot unless
anything threw (the per-file catch only logs and continues). -/
def uploadOne (user : User) (projectId : Option Nat) (department urgency : String)
    (acc : PState × List Document) (f : FileInfo) : PState × List Document :=
  let cr := dbCreate acc.1 f projectId department user.id urgency
  match cr.2 with
  | none => (cr.1, acc.2)
  | some doc =>
    let pr := processDocument doc.id f.path cr.1
    if pr.2.1 then (pr.1, acc.2 ++ [doc]) else (pr.1, acc.2)

/-- DocumentController.uploadDocuments: validation of the file list and
department, then the per-file loop, then an unconditional 201 carrying
the snapshots of the files whose handling did not throw. -/
def uploadDocuments (user : User) (files : List FileInfo)
    (projectId : Option Nat) (department urgency : String) (st : PState) :
    UploadResponse × PState :=
  if files.isEmpty then
    ({ status := 400, success := false, message := "No files uploaded",
        documents := [] }, st)
  else if department = "" then
    ({ status := 400, success := false, message := "Department is required",
        documents := [] }, st)
  else
    let r := files.foldl (uploadOne user projectId department urgency) (st, [])
    ({ status := 201, success := true,
        message := toString r.2.length ++ " document(s) uploaded successfully",
        documents := r.2 }, r.1)

/-! ### Query and search facade (read side of DocumentController) -/

/-- The filter set the list and search handlers build. -/
structure ListFilters where
  department : Option String
  project_id : Option Nat
  urgency_level : Option String
  processing_status : Option Status
deriving DecidableEq, Repr

/-- Whether a row passes a filter set. -/
def matchesFilters (f : ListFilters) (d : Document) : Bool :=
  (match f.department with | none => true | some x => d.department = x) &&
  (match f.project_id with | none => true | some x => d.project_id = some x) &&
  (match f.urgency_level with | none => true | some x => d.urgency_level = x) &&
  (match f.processing_status with | none => true | some x => d.processing_status = x)

/-- A page of store results with the window-independent total. -/
structure StorePage where
  documents : List Document
  total : Nat
deriving DecidableEq, Repr

/-- DocumentModel.getDocuments.  Modelled from the spec: filtered
newest-first listing (the store list is kept in its native order),
paginated by an explicit page and page size, reporting a total count
independent of the page window. -/
def storeGetDocuments (store : List Document) (f : ListFilters)
    (page limit : Nat) : StorePage :=
  let filtered := store.filter (matchesFilters f)
  { documents := (filtered.drop ((page - 1) * limit)).take limit
    total := filtered.length }

/-- Whether a row matches a keyword query.  Modelled from the spec:
substring match across the filename, summary and keyword fields. -/
def matchesQuery (q : String) (d : Document) : Bool :=
  sIncludes (sLower d.original_filename) (sLower q) ||
  (match d.ai_summary with
    | none => false
    | some s => sIncludes (sLower s) (sLower q)) ||
  (match d.ai_keywords with
    | none => false
    | some kws => kws.any (fun kw => sIncludes (sLower kw) (sLower q)))

/-- DocumentModel.searchDocuments.  Modelled from the spec: the
keyword search restricted by the filter set, paginated, in store-native
order. -/
def storeSearchDocuments (store : List Document) (q : String)
    (f : ListFilters) (page limit : Nat) : StorePage :=
  let filtered := store.filter (fun d => matchesFilters f d && matchesQuery q d)
  { documents := (filtered.drop ((page - 1) * limit)).take limit
    total := filtered.length }

/-- The departent filter the non-admin gate forces: the caller's own
department for everyone but admins, the optional query parameter for
admins. -/
def effectiveDepartment (user : User) (qDept : Option String) : Option String :=
  if user.role ≠ "admin" then some user.department else qDept

/-- DocumentController.getDocuments: department scoping, then the store
listing. -/
def getDocuments (user : User) (qDept : Option String) (qProj : Option Nat)
    (qUrg : Option String) (qStatus : Option Status) (page limit : Nat)
    (store : List Document) : StorePage :=
  storeGetDocuments store
    { department := effectiveDepartment user qDept
      project_id := qProj
      urgency_level := qUrg
      processing_status := qStatus }
    page limit

/-- The outcome of a single-record fetch. -/
inductive GetByIdResult where
  | notFound
  | denied
  | found (d : Document)
deriving DecidableEq, Repr

/-- DocumentController.getDocumentById: lookup, then the
department-match authorization for non-admins. -/
def getDocumentById (user : User) (id : Nat) (store : List Document) :
    GetByIdResult :=
  match storeFind store id with
  | none => GetByIdResult.notFound
  | some d =>
    if user.role ≠ "admin" ∧ d.department ≠ user.department then
      GetByIdResult.denied
    else GetByIdResult.found d

/-- The outcome of a download request. -/
inductive DownloadRes where
  | err (status : Nat) (message : String)
  | file (contentType filename : String) (bytes : Bytes)
deriving DecidableEq, Repr

/-- DocumentController.downloadDocument: lookup, department
authorization, on-disk existence check, then the streamed bytes with
the original filename and stored media type. -/
def downloadDocument (user : User) (id : Nat) (fs : FS)
    (store : List Document) : DownloadRes :=
  match storeFind store id with
  | none => DownloadRes.err 404 "Document not found"
  | some d =>
    if user.role ≠ "admin" ∧ d.department ≠ user.department then
      DownloadRes.err 403 "Access denied - document not in your department"
    else if ¬ fsExists fs d.file_path then
      DownloadRes.err 404 "File not found on disk"
    else
      DownloadRes.file d.mime_type d.original_filename
        ((fsRead fs d.file_path).getD [])

/-- Log severities of the logger the controllers use. -/
inductive LogLevel where
  | info
  | warn
  | error
deriving DecidableEq, Repr

/-- One emitted log line. -/
structure LogEntry where
  level : LogLevel
  msg : String
deriving DecidableEq, Repr

/-- The outcome of a delete request, with the log lines the handler
emitted. -/
structure DeleteRes where
  status : Nat
  success : Bool
  message : String
  fs : FS
  store : List Document
  logs : List LogEntry
deriving DecidableEq, Repr

/-- DocumentController.deleteDocument: lookup, owner-or-admin
authorization, unlink of the backing file only when it still exists (a
missing file is skipped without any log line), then the record
deletion (modelled from the spec as removal by id) and the success
log. -/
def deleteDocument (user : User) (id : Nat) (fs : FS)
    (store : List Document) : DeleteRes :=
  match storeFind store id with
  | none =>
    { status := 404, success := false, message := "Document not found",
      fs := fs, store := store, logs := [] }
  | some d =>
    if user.role ≠ "admin" ∧ d.uploaded_by ≠ user.id then
      { status := 403, success := false,
        message := "Access denied - you can only delete your own documents",
        fs := fs, store := store, logs := [] }
    else
      let fs := if fsExists fs d.file_path then fsUnlink fs d.file_path else fs
      let deletedLine : LogEntry :=
        { level := LogLevel.info,
          msg := "Document deleted: " ++ d.original_filename ++ " by user " ++ user.email }
      { status := 200, success := true,
        message := "Document deleted successfully",
        fs := fs,
        store := store.filter (fun x => x.id ≠ id),
        logs := [deletedLine] }

/-! ### Relevance scoring and the search handler -/

/-- DocumentController.calculateRelevanceScore: the weighted substring
score over the lower-cased query tokens.  The truthiness guards of the
source are kept: an absent or empty summary contributes nothing, an
absent keyword array contributes nothing. -/
def calculateRelevanceScore (query : String) (d : Document) : Nat :=
  let queryWords := jsSplitWS (sLower query)
  let s1 := queryWords.foldl
    (fun acc w => if sIncludes (sLower d.original_filename) w then acc + 3 else acc) 0
  let s2 :=
    match d.ai_summary with
    | none => s1
    | some s =>
      if s = "" then s1
      else queryWords.foldl
        (fun acc w => if sIncludes (sLower s) w then acc + 2 else acc) s1
  let s3 :=
    match d.ai_keywords with
    | none => s2
    | some kws => queryWords.foldl
        (fun acc w => kws.foldl
          (fun a kw => if sIncludes (sLower kw) w then a + 4 else a) acc) s2
  if sIncludes (sLower d.department) (sLower query) then s3 + 1 else s3

/-- The comparator the search handler sorts with: descending relevance
score.  Array.prototype.sort is stable, and a stable sort by this total
preorder is a unique permutation, so the insertion sort below computes
exactly the array the handler returns. -/
def byScoreDesc (a b : Document × Nat) : Prop := b.2 ≤ a.2

instance : DecidableRel byScoreDesc := fun a b => Nat.decLe b.2 a.2

instance : IsTotal (Document × Nat) byScoreDesc :=
  ⟨fun a b => le_total b.2 a.2⟩

instance : IsTrans (Document × Nat) byScoreDesc :=
  ⟨fun _ _ _ h1 h2 => le_trans h2 h1⟩

/-- The enhance-and-sort step of DocumentController.searchDocuments:
attach each result's relevance score, then sort descending by score,
ties keeping store-native order. -/
def searchEnhance (query : String) (docs : List Document) :
    List (Document × Nat) :=
  List.insertionSort byScoreDesc
    (docs.map (fun d => (d, calculateRelevanceScore query d)))

/-- The search response shape the claims inspect. -/
structure SearchResponse where
  status : Nat
  success : Bool
  results : List (Document × Nat)
  total : Nat
deriving DecidableEq, Repr

/-- DocumentController.searchDocuments: the non-empty-query guard, the
department scoping, the store search, then scoring and the stable
descending sort. -/
def searchDocuments (user : User) (q : String) (qDept : Option String)
    (_qType : Option String) (qUrg : Option String) (page limit : Nat)
    (store : List Document) : SearchResponse :=
  if sTrim q = "" then
    { status := 400, success := false, results := [], total := 0 }
  else
    let searchQuery := sTrim q
    let page := storeSearchDocuments store searchQuery
      { department := effectiveDepartment user qDept
        project_id := none
        urgency_level := qUrg
        processing_status := none }
      page limit
    { status := 200, success := true
      results := searchEnhance searchQuery page.documents
      total := page.total }

/-! ### Spec-side definitions and claim predicates -/

/-- The relevance score exactly as the spec sentence words it: a
weighted sum of 3 per query token that is a substring of the filename,
2 per query token that is a substring of the AI summary, 4 per
token-keyword pair where the keyword contains the token, and 1 for a
department-name substring match.  Written from the spec's words, to be
compared against calculateRelevanceScore, which is written from the
source. -/
def specRelevanceScore (query : String) (d : Document) : Nat :=
  let tokens := jsSplitWS (sLower query)
  3 * tokens.countP (sIncludes (sLower d.original_filename)) +
  2 * (match d.ai_summary with
    | none => 0
    | some s => tokens.countP (sIncludes (sLower s))) +
  4 * (tokens.map (fun w =>
    match d.ai_keywords with
    | none => 0
    | some kws => kws.countP (fun kw => sIncludes (sLower kw) w))).sum +
  (if sIncludes (sLower d.department) (sLower query) then 1 else 0)

/-- The status-write discipline claim C1 asserts of one pipeline run:
no written status is pending, and a written completed or failed is the
last write of the run. -/
def claimC1TraceOK : List Status → Bool
  | [] => true
  | [s] => s ≠ Status.pending
  | s :: rest =>
    (s ≠ Status.pending && s ≠ Status.completed && s ≠ Status.failed) &&
    claimC1TraceOK rest

/-- Forward position of a status in the pipeline state machine. -/
def statusRank : Status → Nat
  | Status.pending => 0
  | Status.processing => 1
  | Status.failed => 2
  | Status.completed => 3

/-- The amended status-write discipline: writes never include pending
and move strictly forward along pending, processing, failed,
completed — in particular completed is final, but a failed write may
still be overwritten by the one completed write of the in-run fallback
pass. -/
def amendedTraceOK : List Status → Bool
  | [] => true
  | [s] => s ≠ Status.pending
  | a :: b :: t =>
    (a ≠ Status.pending) && decide (statusRank a < statusRank b) &&
    amendedTraceOK (b :: t)

/-- Both confidence columns of a row lie in the closed unit interval
whenever present. -/
def confFieldsOK (d : Document) : Prop :=
  (∀ c ∈ d.classification_confidence, 0 ≤ c ∧ c ≤ 1) ∧
  (∀ c ∈ d.summary_confidence, 0 ≤ c ∧ c ≤ 1)

instance (d : Document) : Decidable (confFieldsOK d) := by
  unfold confFieldsOK; infer_instance

/-! ### Concrete fixtures for the closed scenario runs -/

/-- A SAFETY-department uploader. -/
def safetyUser : User :=
  { id := 1, email := "safety.officer@kmrl.com", department := "SAFETY",
    role := "safety_officer" }

/-- The stored upload of safety_notice.pdf, named by the multer storage
scheme (date stamp, random disambiguator, sanitized original name). -/
def safetyFile : FileInfo :=
  { filename := "2025-10-11_ab12cd34_safety_notice.pdf"
    originalname := "safety_notice.pdf"
    size := 1
    mimetype := "application/pdf"
    path := "uploads/documents/safety/2025-10-11_ab12cd34_safety_notice.pdf" }

/-- Fresh state holding just the uploaded bytes of safety_notice.pdf,
with the external AI service unreachable (empty oracle queues) and a
healthy record store. -/
def safetyState : PState :=
  { fs := [(safetyFile.path, [7])], store := [], nextId := 1,
    classifyQ := [], summaryQ := [], dbQ := [] }

/-- A zero-byte upload with a valid extension. -/
def emptyFile : FileInfo :=
  { filename := "2025-10-11_ab12cd34_empty.pdf"
    originalname := "empty.pdf"
    size := 0
    mimetype := "application/pdf"
    path := "uploads/documents/safety/2025-10-11_ab12cd34_empty.pdf" }

/-- Fresh state holding the zero-byte upload. -/
def emptyState : PState :=
  { fs := [(emptyFile.path, [])], store := [], nextId := 1,
    classifyQ := [], summaryQ := [], dbQ := [] }

/-- A pending row for safety_notice.pdf, as DocumentModel.create leaves
it. -/
def pendingSafetyDoc : Document :=
  { id := 1
    filename := safetyFile.filename
    original_filename := safetyFile.originalname
    file_size := 1
    mime_type := "application/pdf"
    file_path := safetyFile.path
    project_id := none
    department := "SAFETY"
    uploaded_by := 1
    urgency_level := "routine"
    processing_status := Status.pending
    ai_classification := none
    classification_confidence := none
    ai_summary := none
    summary_confidence := none
    ai_keywords := none }

/-- State for the C1 run: the pending row exists, the file is on disk,
and the record store faults exactly once, on the first write of the
processing run. -/
def faultOnceState : PState :=
  { fs := [(safetyFile.path, [7])], store := [pendingSafetyDoc], nextId := 2,
    classifyQ := [], summaryQ := [], dbQ := [true] }

/-- A completed row whose backing file has been removed from disk. -/
def orphanedDoc : Document :=
  { pendingSafetyDoc with processing_status := Status.completed }

/-- State in which every record-store write faults. -/
def allFaultState : PState :=
  { safetyState with dbQ := [true] }

/-- A non-admin SAFETY engineer. -/
def nonAdminUser : User :=
  { id := 2, email := "eng@kmrl.com", department := "SAFETY", role := "engineer" }

/-- A completed SAFETY row. -/
def safeDoc : Document :=
  { orphanedDoc with
    ai_summary := some "safety&training document: safety_notice.pdf"
    ai_keywords := some ["Safety protocol"] }

/-- A completed FINANCE row. -/
def financeDoc : Document :=
  { safeDoc with
    id := 2
    department := "FINANCE"
    original_filename := "invoice.pdf" }

/-- A two-department store. -/
def twoDeptStore : List Document := [safeDoc, financeDoc]

/-- Relation between a store and the result of a batch of writes keyed
to one record id: a pointwise map that leaves every other id's rows
untouched and never changes ids. -/
def updOnly (id : Nat) (s t : List Document) : Prop :=
  ∃ g : Document → Document,
    t = s.map g ∧ (∀ d, d.id ≠ id → g d = d) ∧ (∀ d, (g d).id = d.id)

/-- A document's processing_status is terminal. -/
def terminalStatus (d : Document) : Prop :=
  d.processing_status = Status.completed ∨ d.processing_status = Status.failed

instance (d : Document) : Decidable (terminalStatus d) := by
  unfold terminalStatus; infer_instance

/-! ### Theorems -/

theorem updOnly_refl (id : Nat) (s : List Document) : updOnly id s s :=
  ⟨fun d => d, by simp, fun _ _ => rfl, fun _ => rfl⟩

theorem updOnly_trans {id : Nat} {s t u : List Document}
    (h1 : updOnly id s t) (h2 : updOnly id t u) : updOnly id s u := by
  obtain ⟨g1, rfl, hg1, hi1⟩ := h1
  obtain ⟨g2, rfl, hg2, hi2⟩ := h2
  refine ⟨fun d => g2 (g1 d), by rw [List.map_map]; rfl, ?_, ?_⟩
  · intro d hd
    show g2 (g1 d) = d
    rw [hg1 d hd, hg2 d hd]
  · intro d
    show (g2 (g1 d)).id = d.id
    rw [hi2, hi1]

theorem applyUpdate_id (d : Document) (u : AIUpdate) :
    (applyUpdate d u).id = d.id := rfl

theorem applyUpdate_status_some {d : Document} {u : AIUpdate} {s : Status}
    (h : u.processing_status = some s) :
    (applyUpdate d u).processing_status = s := by
  unfold applyUpdate
  simp only [h, Option.getD_some]

theorem confOK_statusOnly (s : Status) : confOK (statusOnly s) = true := rfl

/-- Searching a filtered list equals searching the original when the
search predicate entails the filter predicate. -/
theorem find?_filter_of_imp {α : Type} (l : List α) (p' keep : α → Bool)
    (h : ∀ e, p' e = true → keep e = true) :
    (l.filter keep).find? p' = l.find? p' := by
  induction l with
  | nil => rfl
  | cons a t ih =>
    by_cases hk : keep a = true
    · rw [List.filter_cons_of_pos hk]
      by_cases hp : p' a = true
      · simp [List.find?, hp]
      · simp [List.find?, hp, ih]
    · rw [List.filter_cons_of_neg (by simpa using hk)]
      have hp : p' a = false := by
        cases hpa : p' a
        · rfl
        · exact absurd (h a hpa) hk
      simp [List.find?, hp, ih]

theorem fsExists_of_read {fs : FS} {p : String} {b : Bytes}
    (h : fsRead fs p = some b) : fsExists fs p = true := by
  unfold fsRead at h
  cases hf : fs.find? (fun e => e.1 = p) with
  | none => rw [hf] at h; exact absurd h (by simp)
  | some e =>
    have hmem := List.mem_of_find?_eq_some hf
    have hpe : e.1 = p := by simpa using List.find?_some hf
    unfold fsExists
    apply List.any_eq_true.mpr
    exact ⟨e, hmem, by simpa using hpe⟩

theorem fsRead_rename_self {fs : FS} {src dst : String} {b : Bytes}
    (h : fsRead fs src = some b) :
    fsRead (fsRename fs src dst) dst = some b := by
  unfold fsRename
  rw [h]
  unfold fsRead
  simp [List.find?]

theorem fsRead_rename_other {fs : FS} {src dst p : String}
    (hs : p ≠ src) (hd : p ≠ dst) :
    fsRead (fsRename fs src dst) p = fsRead fs p := by
  unfold fsRename
  cases hr : fsRead fs src with
  | none => rfl
  | some b =>
    show fsRead ((dst, b) :: fs.filter (fun e => e.1 ≠ src ∧ e.1 ≠ dst)) p
      = fsRead fs p
    unfold fsRead
    have h1 : (decide ((dst, b).1 = p)) = false := by
      simp only [decide_eq_false_iff_not]
      exact fun h => hd h.symm
    simp only [List.find?, h1]
    rw [find?_filter_of_imp]
    intro e he
    have he2 : e.1 = p := by simpa using he
    rw [he2]
    simpa using ⟨hs, hd⟩

theorem dbUpdate_frames (st : PState) (id : Nat) (u : AIUpdate) :
    (dbUpdate st id u).1.fs = st.fs ∧
    (dbUpdate st id u).1.nextId = st.nextId ∧
    (dbUpdate st id u).1.classifyQ = st.classifyQ ∧
    (dbUpdate st id u).1.summaryQ = st.summaryQ ∧
    (dbUpdate st id u).1.store.length = st.store.length ∧
    updOnly id st.store (dbUpdate st id u).1.store := by
  unfold dbUpdate takeDb
  by_cases hf : st.dbQ.headD false = true
  · simp only [hf, if_true]
    exact ⟨by trivial, by trivial, by trivial, by trivial, by trivial,
      updOnly_refl id st.store⟩
  · simp only [hf, Bool.false_eq_true, if_false]
    by_cases hc : confOK u = true
    · simp only [hc, eq_self_iff_true, not_true, if_false]
      refine ⟨by trivial, by trivial, by trivial, by trivial,
        List.length_map _ _, ?_⟩
      refine ⟨fun d => if d.id = id then applyUpdate d u else d, rfl, ?_, ?_⟩
      · intro d hd
        show (if d.id = id then applyUpdate d u else d) = d
        rw [if_neg hd]
      · intro d
        show (if d.id = id then applyUpdate d u else d).id = d.id
        by_cases h : d.id = id
        · rw [if_pos h, applyUpdate_id]
        · rw [if_neg h]
    · rw [if_pos hc]
      exact ⟨by trivial, by trivial, by trivial, by trivial, by trivial,
        updOnly_refl id st.store⟩

theorem dbUpdate_ok {st : PState} {id : Nat} {u : AIUpdate}
    (h : (dbUpdate st id u).2.1 = true) :
    confOK u = true ∧
    (dbUpdate st id u).1.store
      = st.store.map (fun d => if d.id = id then applyUpdate d u else d) ∧
    (dbUpdate st id u).2.2
      = (match u.processing_status with | none => [] | some s => [s]) := by
  unfold dbUpdate takeDb at *
  by_cases hf : st.dbQ.headD false = true
  · rw [if_pos hf] at h
    exact absurd h (by simp)
  · simp only [hf, Bool.false_eq_true, if_false] at h ⊢
    by_cases hc : confOK u = true
    · simp only [hc, eq_self_iff_true, not_true, if_false]
      exact ⟨by trivial, by trivial, by trivial⟩
    · rw [if_pos hc] at h
      exact absurd h (by simp)

theorem dbUpdate_not_ok {st : PState} {id : Nat} {u : AIUpdate}
    (h : (dbUpdate st id u).2.1 = false) :
    (dbUpdate st id u).1.store = st.store ∧ (dbUpdate st id u).2.2 = [] := by
  unfold dbUpdate takeDb at *
  by_cases hf : st.dbQ.headD false = true
  · rw [if_pos hf]
    exact ⟨by trivial, by trivial⟩
  · simp only [hf, Bool.false_eq_true, if_false] at h ⊢
    by_cases hc : confOK u = true
    · simp only [hc, eq_self_iff_true, not_true, if_false] at h
      exact absurd h (by simp)
    · rw [if_pos hc]
      exact ⟨by trivial, by trivial⟩

theorem dbUpdate_nil_ok {st : PState} (id : Nat) (u : AIUpdate)
    (h : st.dbQ = []) :
    (dbUpdate st id u).2.1 = confOK u ∧ (dbUpdate st id u).1.dbQ = [] := by
  unfold dbUpdate takeDb
  rw [h]
  simp only [List.headD_nil, List.tail_nil, Bool.false_eq_true, if_false]
  by_cases hc : confOK u = true
  · simp only [hc, eq_self_iff_true, not_true, if_false]
    exact ⟨by trivial, by trivial⟩
  · rw [if_pos hc]
    constructor
    · cases hcc : confOK u
      · rfl
      · exact absurd hcc hc
    · rfl

theorem map_update_status {s : List Document} {id : Nat} {u : AIUpdate}
    {st0 : Status} (hu : u.processing_status = some st0) :
    ∀ d ∈ s.map (fun x => if x.id = id then applyUpdate x u else x),
      d.id = id → d.processing_status = st0 := by
  intro d hd hid
  obtain ⟨d0, _, rfl⟩ := List.mem_map.mp hd
  by_cases h0 : d0.id = id
  · rw [if_pos h0]
    exact applyUpdate_status_some hu
  · rw [if_neg h0] at hid ⊢
    exact absurd hid h0

theorem q85_eq : q85 = (0.85 : ℚ) := by
  rw [q85, Rat.mk'_eq_divInt]; norm_num [Rat.divInt_eq_div]

theorem q90_eq : q90 = (0.90 : ℚ) := by
  rw [q90, Rat.mk'_eq_divInt]; norm_num [Rat.divInt_eq_div]

theorem q60_eq : q60 = (0.60 : ℚ) := by
  rw [q60, Rat.mk'_eq_divInt]; norm_num [Rat.divInt_eq_div]

theorem q80_eq : q80 = (0.8 : ℚ) := by
  rw [q80, Rat.mk'_eq_divInt]; norm_num [Rat.divInt_eq_div]

/-- C6: uploading safety_notice.pdf to department SAFETY while the
external AI service is unreachable yields a record classified
safety&training with confidence 0.90 and processing_status
completed. -/
theorem c6_safety_notice_scenario :
    ((uploadDocuments safetyUser [safetyFile] none "SAFETY" "" safetyState).2.store.map
        (fun d => (d.ai_classification, d.classification_confidence, d.processing_status)))
      = [(some "safety&training", some (0.90 : ℚ), Status.completed)] := by
  rw [← q90_eq]
  decide

/-- C2 evaluated at the failing input: a successful upload of
safety_notice.pdf immediately followed by a download of the created
record does not return the uploaded bytes; the processing run moved the
stored file into the ml-queue directory without updating the record's
file_path, so the download reports 404 File not found on disk, while
the repository's own workflow document expects the original file to
download successfully. -/
theorem c2_download_after_upload_is_404 :
    (uploadDocuments safetyUser [safetyFile] none "SAFETY" "" safetyState).1.status = 201 ∧
    (uploadDocuments safetyUser [safetyFile] none "SAFETY" "" safetyState).1.success = true ∧
    downloadDocument safetyUser 1
        (uploadDocuments safetyUser [safetyFile] none "SAFETY" "" safetyState).2.fs
        (uploadDocuments safetyUser [safetyFile] none "SAFETY" "" safetyState).2.store
      = DownloadRes.err 404 "File not found on disk" := by
  refine ⟨rfl, rfl, ?_⟩
  decide

/-- C3 counterexample: a valid upload (one attached file, non-empty
department) of a zero-byte file returns 201, yet the record it created
still has processing_status pending after the response — the
processing run threw in document validation before any status
write. -/
theorem c3_counterexample :
    (uploadDocuments safetyUser [emptyFile] none "SAFETY" "" emptyState).1.status = 201 ∧
    (uploadDocuments safetyUser [emptyFile] none "SAFETY" "" emptyState).1.success = true ∧
    (uploadDocuments safetyUser [emptyFile] none "SAFETY" "" emptyState).2.store.map
        (fun d => d.processing_status) = [Status.pending] := by
  decide

/-- C1 counterexample: when the record store faults once, on the first
write of the run, the run writes failed and then overwrites it with
completed (the in-run fallback pass), so a completed-or-failed write is
not final as the claim states. -/
theorem c1_counterexample :
    (processDocument 1 safetyFile.path faultOnceState).2.2
        = [Status.failed, Status.completed] ∧
    claimC1TraceOK (processDocument 1 safetyFile.path faultOnceState).2.2 = false := by
  decide

theorem dbUpdate_trace_shape (st : PState) (id : Nat) (u : AIUpdate) :
    (dbUpdate st id u).2.2 = [] ∨
    (dbUpdate st id u).2.2
      = (match u.processing_status with | none => [] | some s => [s]) := by
  by_cases h : (dbUpdate st id u).2.1 = true
  · right
    exact (dbUpdate_ok h).2.2
  · left
    exact (dbUpdate_not_ok (Bool.eq_false_iff.mpr h)).2

theorem catchPath_frames (id : Nat) (fp : String) (st : PState) :
    (catchPath id fp st).1.fs = st.fs ∧
    (catchPath id fp st).1.nextId = st.nextId ∧
    (catchPath id fp st).1.store.length = st.store.length ∧
    updOnly id st.store (catchPath id fp st).1.store := by
  obtain ⟨f1, f2, _, _, f5, f6⟩ := dbUpdate_frames st id (statusOnly Status.failed)
  unfold catchPath
  simp only
  by_cases h : (dbUpdate st id (statusOnly Status.failed)).2.1 = true
  · rw [if_neg (fun hh => hh h)]
    obtain ⟨g1, g2, _, _, g5, g6⟩ :=
      dbUpdate_frames
        (takeClassify (dbUpdate st id (statusOnly Status.failed)).1).2 id
        (fallbackUpdate (classifyDocument
          (takeClassify (dbUpdate st id (statusOnly Status.failed)).1).1 "" fp))
    exact ⟨g1.trans f1, g2.trans f2, g5.trans f5, updOnly_trans f6 g6⟩
  · rw [if_pos h]
    exact ⟨f1, f2, f5, f6⟩

theorem catchPath_trace (id : Nat) (fp : String) (st : PState) :
    (catchPath id fp st).2.2 = [] ∨
    (catchPath id fp st).2.2 = [Status.failed] ∨
    (catchPath id fp st).2.2 = [Status.failed, Status.completed] := by
  unfold catchPath
  simp only
  by_cases h : (dbUpdate st id (statusOnly Status.failed)).2.1 = true
  · rw [if_neg (fun hh => hh h)]
    have hF : (dbUpdate st id (statusOnly Status.failed)).2.2 = [Status.failed] :=
      (dbUpdate_ok h).2.2
    rcases dbUpdate_trace_shape
        (takeClassify (dbUpdate st id (statusOnly Status.failed)).1).2 id
        (fallbackUpdate (classifyDocument
          (takeClassify (dbUpdate st id (statusOnly Status.failed)).1).1 "" fp))
      with hC | hC
    · right; left
      rw [hF, hC]
      rfl
    · right; right
      rw [hF, hC]
      rfl
  · rw [if_pos h]
    left
    exact (dbUpdate_not_ok (Bool.eq_false_iff.mpr h)).2

theorem catchPath_healthy (id : Nat) (fp : String) (st : PState)
    (hdb : st.dbQ = []) :
    (catchPath id fp st).1.dbQ = [] ∧
    (catchPath id fp st).1.fs = st.fs ∧
    (∀ d ∈ (catchPath id fp st).1.store, d.id = id → terminalStatus d) := by
  have h1 := dbUpdate_nil_ok id (statusOnly Status.failed) hdb
  have hok : (dbUpdate st id (statusOnly Status.failed)).2.1 = true := by
    rw [h1.1]; rfl
  have hstore1 := (dbUpdate_ok hok).2.1
  have hdb2 : (takeClassify (dbUpdate st id (statusOnly Status.failed)).1).2.dbQ = [] :=
    h1.2
  have h2 := dbUpdate_nil_ok id
    (fallbackUpdate (classifyDocument
      (takeClassify (dbUpdate st id (statusOnly Status.failed)).1).1 "" fp)) hdb2
  obtain ⟨g1, _, _, _, _, _⟩ :=
    dbUpdate_frames
      (takeClassify (dbUpdate st id (statusOnly Status.failed)).1).2 id
      (fallbackUpdate (classifyDocument
        (takeClassify (dbUpdate st id (statusOnly Status.failed)).1).1 "" fp))
  obtain ⟨f1, _, _, _, _, _⟩ := dbUpdate_frames st id (statusOnly Status.failed)
  unfold catchPath
  simp only
  rw [if_neg (fun hh => hh hok)]
  refine ⟨h2.2, g1.trans f1, ?_⟩
  by_cases hC : (dbUpdate
      (takeClassify (dbUpdate st id (statusOnly Status.failed)).1).2 id
      (fallbackUpdate (classifyDocument
        (takeClassify (dbUpdate st id (statusOnly Status.failed)).1).1 "" fp))).2.1 = true
  · intro d hd hid
    rw [(dbUpdate_ok hC).2.1] at hd
    left
    exact map_update_status rfl d hd hid
  · intro d hd hid
    rw [(dbUpdate_not_ok (Bool.eq_false_iff.mpr hC)).1] at hd
    have hd2 : d ∈ (dbUpdate st id (statusOnly Status.failed)).1.store := hd
    rw [hstore1] at hd2
    right
    exact map_update_status rfl d hd2 hid

theorem processDocument_frames (id : Nat) (fp : String) (st : PState) :
    (processDocument id fp st).1.nextId = st.nextId ∧
    (processDocument id fp st).1.store.length = st.store.length ∧
    updOnly id st.store (processDocument id fp st).1.store ∧
    ((processDocument id fp st).1.fs = st.fs ∨
      (processDocument id fp st).1.fs = fsRename st.fs fp (mlTarget fp)) := by
  unfold processDocument
  simp only
  by_cases h0 : fsExists st.fs fp = true
  case neg =>
    rw [if_pos h0]
    exact ⟨rfl, rfl, updOnly_refl id st.store, Or.inl rfl⟩
  case pos =>
    rw [if_neg (fun hh => hh h0)]
    by_cases hsz : ((fsRead st.fs fp).getD []).length = 0
    · rw [if_pos hsz]
      exact ⟨rfl, rfl, updOnly_refl id st.store, Or.inl rfl⟩
    · rw [if_neg hsz]
      set st1 : PState := { st with fs := fsRename st.fs fp (mlTarget fp) } with hst1
      set r1 := dbUpdate st1 id (statusOnly Status.processing) with hr1
      obtain ⟨a1, a2, _, _, a5, a6⟩ :=
        dbUpdate_frames st1 id (statusOnly Status.processing)
      rw [← hr1] at a1 a2 a5 a6
      by_cases hok1 : r1.2.1 = true
      case neg =>
        rw [if_pos hok1]
        obtain ⟨c1, c2, c5, c6⟩ := catchPath_frames id fp r1.1
        exact ⟨c2.trans a2, c5.trans a5, updOnly_trans a6 c6,
          Or.inr (c1.trans a1)⟩
      case pos =>
        rw [if_neg (fun hh => hh hok1)]
        set c := takeClassify r1.1 with hc
        set clsRes := classifyDocument c.1 "" fp with hcls
        set s := takeSummary c.2 with hs
        set sumRes := generateSummary s.1 fp with hsum
        set r4 := dbUpdate s.2 id (resultsUpdate clsRes sumRes) with hr4
        obtain ⟨b1, b2, _, _, b5, b6⟩ :=
          dbUpdate_frames s.2 id (resultsUpdate clsRes sumRes)
        rw [← hr4] at b1 b2 b5 b6
        by_cases hok4 : r4.2.1 = true
        · rw [if_pos hok4]
          exact ⟨b2.trans a2, b5.trans a5, updOnly_trans a6 b6,
            Or.inr (b1.trans a1)⟩
        · rw [if_neg hok4]
          obtain ⟨c1, c2, c5, c6⟩ := catchPath_frames id fp r4.1
          exact ⟨c2.trans (b2.trans a2), c5.trans (b5.trans a5),
            updOnly_trans (updOnly_trans a6 b6) c6,
            Or.inr (c1.trans (b1.trans a1))⟩

theorem processDocument_trace (id : Nat) (fp : String) (st : PState) :
    amendedTraceOK (processDocument id fp st).2.2 = true := by
  unfold processDocument
  simp only
  by_cases h0 : fsExists st.fs fp = true
  case neg =>
    rw [if_pos h0]
    rfl
  case pos =>
    rw [if_neg (fun hh => hh h0)]
    by_cases hsz : ((fsRead st.fs fp).getD []).length = 0
    · rw [if_pos hsz]
      rfl
    · rw [if_neg hsz]
      set st1 : PState := { st with fs := fsRename st.fs fp (mlTarget fp) } with hst1
      set r1 := dbUpdate st1 id (statusOnly Status.processing) with hr1
      by_cases hok1 : r1.2.1 = true
      case neg =>
        rw [if_pos hok1]
        have h1 : r1.2.2 = [] := by
          rw [hr1]
          exact (dbUpdate_not_ok (by rw [← hr1]; exact Bool.eq_false_iff.mpr hok1)).2
        rcases catchPath_trace id fp r1.1 with hC | hC | hC <;>
          rw [h1, hC] <;> rfl
      case pos =>
        rw [if_neg (fun hh => hh hok1)]
        have h1 : r1.2.2 = [Status.processing] := by
          rw [hr1]
          exact (dbUpdate_ok (hr1 ▸ hok1)).2.2
        set c := takeClassify r1.1 with hc
        set clsRes := classifyDocument c.1 "" fp with hcls
        set s := takeSummary c.2 with hs
        set sumRes := generateSummary s.1 fp with hsum
        set r4 := dbUpdate s.2 id (resultsUpdate clsRes sumRes) with hr4
        by_cases hok4 : r4.2.1 = true
        · rw [if_pos hok4]
          have h4 : r4.2.2 = [Status.completed] := by
            rw [hr4]
            exact (dbUpdate_ok (hr4 ▸ hok4)).2.2
          rw [h1, h4]
          rfl
        · rw [if_neg hok4]
          have h4 : r4.2.2 = [] := by
            rw [hr4]
            exact (dbUpdate_not_ok (by rw [← hr4]; exact Bool.eq_false_iff.mpr hok4)).2
          rcases catchPath_trace id fp r4.1 with hC | hC | hC <;>
            rw [h1, h4, hC] <;> rfl

theorem processDocument_healthy (id : Nat) (fp : String) (st : PState)
    (hdb : st.dbQ = []) {b : Bytes} (hb : fsRead st.fs fp = some b)
    (hbne : b ≠ []) :
    (processDocument id fp st).1.dbQ = [] ∧
    (processDocument id fp st).1.fs = fsRename st.fs fp (mlTarget fp) ∧
    (∀ d ∈ (processDocument id fp st).1.store, d.id = id → terminalStatus d) := by
  have hex : fsExists st.fs fp = true := fsExists_of_read hb
  have hsz : ¬ ((fsRead st.fs fp).getD []).length = 0 := by
    rw [hb]
    simpa using hbne
  unfold processDocument
  simp only
  rw [if_neg (fun hh => hh hex), if_neg hsz]
  set st1 : PState := { st with fs := fsRename st.fs fp (mlTarget fp) } with hst1
  have hdb1 : st1.dbQ = [] := hdb
  have h1 := dbUpdate_nil_ok id (statusOnly Status.processing) hdb1
  set r1 := dbUpdate st1 id (statusOnly Status.processing) with hr1
  have hok1 : r1.2.1 = true := by
    rw [h1.1]
    rfl
  rw [if_neg (fun hh => hh hok1)]
  obtain ⟨a1, _, _, _, _, _⟩ := dbUpdate_frames st1 id (statusOnly Status.processing)
  rw [← hr1] at a1
  set c := takeClassify r1.1 with hc
  set clsRes := classifyDocument c.1 "" fp with hcls
  set s := takeSummary c.2 with hs
  set sumRes := generateSummary s.1 fp with hsum
  have hdb4 : s.2.dbQ = [] := h1.2
  have h4 := dbUpdate_nil_ok id (resultsUpdate clsRes sumRes) hdb4
  set r4 := dbUpdate s.2 id (resultsUpdate clsRes sumRes) with hr4
  obtain ⟨b1, _, _, _, _, _⟩ := dbUpdate_frames s.2 id (resultsUpdate clsRes sumRes)
  rw [← hr4] at b1
  by_cases hok4 : r4.2.1 = true
  · rw [if_pos hok4]
    refine ⟨h4.2, b1.trans a1, ?_⟩
    intro d hd hid
    rw [hr4, (dbUpdate_ok (hr4 ▸ hok4)).2.1] at hd
    left
    exact map_update_status rfl d hd hid
  · rw [if_neg hok4]
    have hdbc : r4.1.dbQ = [] := h4.2
    obtain ⟨hcd, hcf, hcs⟩ := catchPath_healthy id fp r4.1 hdbc
    exact ⟨hcd, hcf.trans (b1.trans a1), hcs⟩

/-- C1, amended: within one processing run the stored statuses never
include pending and move strictly forward along pending, processing,
failed, completed — completed is always final, but a stored failed may
still be followed by the single completed write of the in-run fallback
pass. -/
theorem c1_status_forward_amended (id : Nat) (fp : String) (st : PState) :
    amendedTraceOK (processDocument id fp st).2.2 = true :=
  processDocument_trace id fp st

theorem dbCreate_nil (f : FileInfo) (pid : Option Nat) (dept : String)
    (ub : Nat) (urg : String) {st : PState} (h : st.dbQ = []) :
    ∃ doc : Document,
      (dbCreate st f pid dept ub urg).2 = some doc ∧
      doc.id = st.nextId ∧
      doc.processing_status = Status.pending ∧
      doc.file_path = f.path ∧
      (dbCreate st f pid dept ub urg).1.store = st.store ++ [doc] ∧
      (dbCreate st f pid dept ub urg).1.nextId = st.nextId + 1 ∧
      (dbCreate st f pid dept ub urg).1.fs = st.fs ∧
      (dbCreate st f pid dept ub urg).1.dbQ = [] := by
  unfold dbCreate takeDb
  rw [h]
  simp only [List.headD_nil, List.tail_nil, Bool.false_eq_true, if_false]
  exact ⟨_, by trivial, by trivial, by trivial, by trivial, by trivial,
    by trivial, by trivial, by trivial⟩

theorem applyUpdate_conf {d : Document} {u : AIUpdate}
    (hd : confFieldsOK d) (hu : confOK u = true) :
    confFieldsOK (applyUpdate d u) := by
  unfold confOK at hu
  rw [Bool.and_eq_true] at hu
  constructor
  · intro c hc
    unfold applyUpdate at hc
    simp only at hc
    cases h1 : u.classification_confidence with
    | none =>
      rw [h1] at hc
      exact hd.1 c hc
    | some v =>
      rw [h1] at hc
      rw [Option.mem_def, Option.some_inj] at hc
      subst hc
      have := hu.1
      rw [h1] at this
      exact of_decide_eq_true this
  · intro c hc
    unfold applyUpdate at hc
    simp only at hc
    cases h1 : u.summary_confidence with
    | none =>
      rw [h1] at hc
      exact hd.2 c hc
    | some v =>
      rw [h1] at hc
      rw [Option.mem_def, Option.some_inj] at hc
      subst hc
      have := hu.2
      rw [h1] at this
      exact of_decide_eq_true this

theorem dbUpdate_conf {st : PState} {id : Nat} {u : AIUpdate}
    (h : ∀ d ∈ st.store, confFieldsOK d) :
    ∀ d ∈ (dbUpdate st id u).1.store, confFieldsOK d := by
  by_cases hok : (dbUpdate st id u).2.1 = true
  · obtain ⟨hc, hs, _⟩ := dbUpdate_ok hok
    rw [hs]
    intro d hd
    obtain ⟨d0, hd0, rfl⟩ := List.mem_map.mp hd
    show confFieldsOK (if d0.id = id then applyUpdate d0 u else d0)
    by_cases h0 : d0.id = id
    · rw [if_pos h0]
      exact applyUpdate_conf (h d0 hd0) hc
    · rw [if_neg h0]
      exact h d0 hd0
  · rw [(dbUpdate_not_ok (Bool.eq_false_iff.mpr hok)).1]
    exact h

theorem dbCreate_conf {st : PState} {f : FileInfo} {pid : Option Nat}
    {dept : String} {ub : Nat} {urg : String}
    (h : ∀ d ∈ st.store, confFieldsOK d) :
    ∀ d ∈ (dbCreate st f pid dept ub urg).1.store, confFieldsOK d := by
  unfold dbCreate takeDb
  simp only
  by_cases hf : st.dbQ.headD false = true
  · rw [if_pos hf]
    exact h
  · simp only [hf, Bool.false_eq_true, if_false]
    intro d hd
    rw [List.mem_append] at hd
    rcases hd with hd | hd
    · exact h d hd
    · rw [List.mem_singleton] at hd
      subst hd
      exact ⟨by simp, by simp⟩

theorem catchPath_conf {id : Nat} {fp : String} {st : PState}
    (h : ∀ d ∈ st.store, confFieldsOK d) :
    ∀ d ∈ (catchPath id fp st).1.store, confFieldsOK d := by
  unfold catchPath
  simp only
  by_cases hok : (dbUpdate st id (statusOnly Status.failed)).2.1 = true
  · rw [if_neg (fun hh => hh hok)]
    exact dbUpdate_conf (dbUpdate_conf h)
  · rw [if_pos hok]
    exact dbUpdate_conf h

theorem processDocument_conf {id : Nat} {fp : String} {st : PState}
    (h : ∀ d ∈ st.store, confFieldsOK d) :
    ∀ d ∈ (processDocument id fp st).1.store, confFieldsOK d := by
  unfold processDocument
  simp only
  by_cases h0 : fsExists st.fs fp = true
  case neg =>
    rw [if_pos h0]
    exact h
  case pos =>
    rw [if_neg (fun hh => hh h0)]
    by_cases hsz : ((fsRead st.fs fp).getD []).length = 0
    · rw [if_pos hsz]
      exact h
    · rw [if_neg hsz]
      set st1 : PState := { st with fs := fsRename st.fs fp (mlTarget fp) } with hst1
      set r1 := dbUpdate st1 id (statusOnly Status.processing) with hr1
      have h1 : ∀ d ∈ r1.1.store, confFieldsOK d := by
        rw [hr1]
        exact dbUpdate_conf h
      by_cases hok1 : r1.2.1 = true
      case neg =>
        rw [if_pos hok1]
        exact catchPath_conf h1
      case pos =>
        rw [if_neg (fun hh => hh hok1)]
        set c := takeClassify r1.1 with hc
        set clsRes := classifyDocument c.1 "" fp with hcls
        set s := takeSummary c.2 with hs
        set sumRes := generateSummary s.1 fp with hsum
        set r4 := dbUpdate s.2 id (resultsUpdate clsRes sumRes) with hr4
        have h4 : ∀ d ∈ r4.1.store, confFieldsOK d := by
          rw [hr4]
          exact dbUpdate_conf h1
        by_cases hok4 : r4.2.1 = true
        · rw [if_pos hok4]
          exact h4
        · rw [if_neg hok4]
          exact catchPath_conf h4

theorem uploadOne_conf (user : User) (pid : Option Nat) (dept urg : String)
    (acc : PState × List Document) (f : FileInfo)
    (h : ∀ d ∈ acc.1.store, confFieldsOK d) :
    ∀ d ∈ (uploadOne user pid dept urg acc f).1.store, confFieldsOK d := by
  unfold uploadOne
  simp only
  cases hcr : (dbCreate acc.1 f pid dept user.id urg).2 with
  | none =>
    exact dbCreate_conf h
  | some doc =>
    simp only
    by_cases hok : (processDocument doc.id f.path (dbCreate acc.1 f pid dept user.id urg).1).2.1 = true
    · rw [if_pos hok]
      exact processDocument_conf (dbCreate_conf h)
    · rw [if_neg hok]
      exact processDocument_conf (dbCreate_conf h)

theorem uploadFold_conf (user : User) (pid : Option Nat) (dept urg : String) :
    ∀ (files : List FileInfo) (st : PState) (pushed : List Document),
      (∀ d ∈ st.store, confFieldsOK d) →
      ∀ d ∈ (files.foldl (uploadOne user pid dept urg) (st, pushed)).1.store,
        confFieldsOK d := by
  intro files
  induction files with
  | nil => intro st pushed h; exact h
  | cons f t ih =>
    intro st pushed h
    simp only [List.foldl]
    have h1 := uploadOne_conf user pid dept urg (st, pushed) f h
    exact ih _ _ h1

/-- C9: both confidence columns of every stored record stay inside the
closed unit interval across an entire upload request — whatever the
external service answers (including out-of-range confidences, which
the CHECK-guarded store write rejects) and however the store
faults. -/
theorem c9_confidence_in_unit_interval (user : User) (files : List FileInfo)
    (projectId : Option Nat) (dept urgency : String) (st : PState)
    (h : ∀ d ∈ st.store, confFieldsOK d) :
    ∀ d ∈ (uploadDocuments user files projectId dept urgency st).2.store,
      confFieldsOK d := by
  unfold uploadDocuments
  by_cases hf : files.isEmpty = true
  · rw [if_pos hf]
    exact h
  · rw [if_neg hf]
    by_cases hd : dept = ""
    · rw [if_pos hd]
      exact h
    · rw [if_neg hd]
      exact uploadFold_conf user projectId dept urgency files st [] h

theorem processDocument_empty (id : Nat) (fp : String) (st : PState)
    {b : Bytes} (hb : fsRead st.fs fp = some b) (hbe : b = []) :
    processDocument id fp st = (st, false, []) := by
  have hex := fsExists_of_read hb
  unfold processDocument
  simp only
  rw [if_neg (fun hh => hh hex), if_pos (by rw [hb, hbe]; rfl)]

theorem uploadOne_fst (user : User) (pid : Option Nat) (dept urg : String)
    (acc : PState × List Document) (f : FileInfo) :
    (uploadOne user pid dept urg acc f).1
      = (match (dbCreate acc.1 f pid dept user.id urg).2 with
        | none => (dbCreate acc.1 f pid dept user.id urg).1
        | some doc =>
          (processDocument doc.id f.path (dbCreate acc.1 f pid dept user.id urg).1).1) := by
  unfold uploadOne
  simp only
  cases (dbCreate acc.1 f pid dept user.id urg).2 with
  | none => rfl
  | some doc =>
    simp only
    by_cases hok :
        (processDocument doc.id f.path (dbCreate acc.1 f pid dept user.id urg).1).2.1 = true
    · rw [if_pos hok]
    · rw [if_neg hok]

/-- One step of the upload loop under a healthy store: the created
record gets the fresh id, the store grows by one row, paths away from
the file's own location and its ml-queue target are untouched, the
uploaded bytes survive at one of those two locations, pre-existing
rows are untouched, and when the file is non-empty the new record ends
in a terminal status. -/
theorem uploadOne_healthy (user : User) (pid : Option Nat) (dept urg : String)
    (st : PState) (pushed : List Document) (f : FileInfo)
    (hdb : st.dbQ = []) {b : Bytes} (hb : fsRead st.fs f.path = some b)
    (hid : ∀ d ∈ st.store, d.id < st.nextId) :
    (uploadOne user pid dept urg (st, pushed) f).1.dbQ = [] ∧
    (uploadOne user pid dept urg (st, pushed) f).1.nextId = st.nextId + 1 ∧
    (uploadOne user pid dept urg (st, pushed) f).1.store.length
      = st.store.length + 1 ∧
    (∀ p : String, p ≠ f.path → p ≠ mlTarget f.path →
      fsRead (uploadOne user pid dept urg (st, pushed) f).1.fs p
        = fsRead st.fs p) ∧
    (∃ p, fsRead (uploadOne user pid dept urg (st, pushed) f).1.fs p = some b ∧
      (p = f.path ∨ p = mlTarget f.path)) ∧
    (∀ d ∈ (uploadOne user pid dept urg (st, pushed) f).1.store,
      d.id < st.nextId + 1) ∧
    (∀ d ∈ (uploadOne user pid dept urg (st, pushed) f).1.store,
      d.id < st.nextId → d ∈ st.store) ∧
    (b ≠ [] →
      ∀ d ∈ (uploadOne user pid dept urg (st, pushed) f).1.store,
        st.nextId ≤ d.id → terminalStatus d) := by
  obtain ⟨doc, hcr2, hdocid, hdocst, hdocfp, hcrstore, hcrnext, hcrfs, hcrdb⟩ :=
    dbCreate_nil f pid dept user.id urg hdb
  have hA1 : (uploadOne user pid dept urg (st, pushed) f).1
      = (processDocument doc.id f.path (dbCreate st f pid dept user.id urg).1).1 := by
    rw [uploadOne_fst]
    simp only [hcr2]
  have hb' : fsRead (dbCreate st f pid dept user.id urg).1.fs f.path = some b := by
    rw [hcrfs]; exact hb
  obtain ⟨pn, plen, pupd, pfs⟩ :=
    processDocument_frames doc.id f.path (dbCreate st f pid dept user.id urg).1
  obtain ⟨g, hgmap, hgne, hgid⟩ := pupd
  have hmemchar : ∀ d ∈ (uploadOne user pid dept urg (st, pushed) f).1.store,
      ∃ d0, (d0 ∈ st.store ∨ d0 = doc) ∧ d = g d0 ∧ d.id = d0.id := by
    intro d hd
    rw [hA1, hgmap, hcrstore] at hd
    obtain ⟨d0, hd0, rfl⟩ := List.mem_map.mp hd
    rw [List.mem_append, List.mem_singleton] at hd0
    exact ⟨d0, hd0, rfl, hgid d0⟩
  have hfsdichot :
      (uploadOne user pid dept urg (st, pushed) f).1.fs = st.fs ∨
      (uploadOne user pid dept urg (st, pushed) f).1.fs
        = fsRename st.fs f.path (mlTarget f.path) := by
    rw [hA1]
    rcases pfs with hh | hh
    · left; rw [hh, hcrfs]
    · right; rw [hh, hcrfs]
  have hdq : (uploadOne user pid dept urg (st, pushed) f).1.dbQ = [] := by
    by_cases hbe : b = []
    · rw [hA1, processDocument_empty doc.id f.path _ hb' hbe]
      exact hcrdb
    · rw [hA1]
      exact (processDocument_healthy doc.id f.path _ hcrdb hb' hbe).1
  refine ⟨hdq, ?_, ?_, ?_, ?_, ?_, ?_, ?_⟩
  · rw [hA1, pn, hcrnext]
  · rw [hA1, plen, hcrstore]
    simp
  · intro p hp1 hp2
    rcases hfsdichot with hh | hh
    · rw [hh]
    · rw [hh, fsRead_rename_other hp1 hp2]
  · by_cases hbe : b = []
    · refine ⟨f.path, ?_, Or.inl rfl⟩
      have hfs0 : (uploadOne user pid dept urg (st, pushed) f).1.fs = st.fs := by
        rw [hA1, processDocument_empty doc.id f.path _ hb' hbe]
        exact hcrfs
      rw [hfs0]
      exact hb
    · refine ⟨mlTarget f.path, ?_, Or.inr rfl⟩
      have hfs1 : (uploadOne user pid dept urg (st, pushed) f).1.fs
          = fsRename (dbCreate st f pid dept user.id urg).1.fs f.path
              (mlTarget f.path) := by
        rw [hA1]
        exact (processDocument_healthy doc.id f.path _ hcrdb hb' hbe).2.1
      rw [hfs1]
      exact fsRead_rename_self hb'
  · intro d hd
    obtain ⟨d0, hd0, rfl, hideq⟩ := hmemchar d hd
    rw [hideq]
    rcases hd0 with hd0 | hd0
    · have := hid d0 hd0
      omega
    · rw [hd0, hdocid]
      omega
  · intro d hd hlt
    obtain ⟨d0, hd0, rfl, hideq⟩ := hmemchar d hd
    rcases hd0 with hd0 | hd0
    · have hne : d0.id ≠ doc.id := by
        rw [hdocid]
        intro hc
        have := hid d0 hd0
        omega
      rw [hgne d0 hne]
      exact hd0
    · rw [hideq, hd0, hdocid] at hlt
      exact absurd hlt (lt_irrefl _)
  · intro hbne d hd hge
    obtain ⟨d0, hd0, rfl, hideq⟩ := hmemchar d hd
    have hdid : (g d0).id = doc.id := by
      rcases hd0 with hd0 | hd0
      · have := hid d0 hd0
        rw [hideq] at hge ⊢
        omega
      · rw [hideq, hd0, hdocid]
    have hmem2 : g d0 ∈ (processDocument doc.id f.path
        (dbCreate st f pid dept user.id urg).1).1.store := by
      rw [← hA1]
      exact hd
    exact (processDocument_healthy doc.id f.path _ hcrdb hb' hbne).2.2 _ hmem2 hdid

/-- The upload loop under a healthy store: the store grows by one row
per file, ids stay bounded by the id counter, disjoint paths are
untouched, and every file's bytes survive at its original path or its
ml-queue target. -/
theorem uploadFold_stored (user : User) (pid : Option Nat) (dept urg : String) :
    ∀ (files : List FileInfo) (st : PState) (pushed : List Document),
      st.dbQ = [] →
      (∀ f ∈ files, ∃ b, fsRead st.fs f.path = some b) →
      List.Pairwise
        (fun f g => f.path ≠ g.path ∧ mlTarget f.path ≠ mlTarget g.path) files →
      (∀ f ∈ files, ∀ g ∈ files, f.path ≠ mlTarget g.path) →
      (∀ d ∈ st.store, d.id < st.nextId) →
      (files.foldl (uploadOne user pid dept urg) (st, pushed)).1.dbQ = [] ∧
      (files.foldl (uploadOne user pid dept urg) (st, pushed)).1.store.length
        = st.store.length + files.length ∧
      (∀ p : String, (∀ g ∈ files, p ≠ g.path ∧ p ≠ mlTarget g.path) →
        fsRead (files.foldl (uploadOne user pid dept urg) (st, pushed)).1.fs p
          = fsRead st.fs p) ∧
      (∀ f ∈ files, ∃ p b, fsRead st.fs f.path = some b ∧
        fsRead (files.foldl (uploadOne user pid dept urg) (st, pushed)).1.fs p
          = some b) := by
  intro files
  induction files with
  | nil =>
    intro st pushed hdb _ _ _ _
    exact ⟨hdb, rfl, fun p _ => rfl, by simp⟩
  | cons f t ih =>
    intro st pushed hdb hp hpair hml hid
    obtain ⟨b, hb⟩ := hp f (List.mem_cons_self f t)
    obtain ⟨u1, u2, u3, u4, u5, u6, _, _⟩ :=
      uploadOne_healthy user pid dept urg st pushed f hdb hb hid
    have hpairt := (List.pairwise_cons.mp hpair).2
    have hpairhd := (List.pairwise_cons.mp hpair).1
    have hp' : ∀ g ∈ t, ∃ b', fsRead
        (uploadOne user pid dept urg (st, pushed) f).1.fs g.path = some b' := by
      intro g hg
      rw [u4 g.path (fun hc => (hpairhd g hg).1 hc.symm)
        (hml g (List.mem_cons_of_mem f hg) f (List.mem_cons_self f t))]
      exact hp g (List.mem_cons_of_mem f hg)
    have hml' : ∀ a ∈ t, ∀ c ∈ t, a.path ≠ mlTarget c.path :=
      fun a ha c hc =>
        hml a (List.mem_cons_of_mem f ha) c (List.mem_cons_of_mem f hc)
    have hid' : ∀ d ∈ (uploadOne user pid dept urg (st, pushed) f).1.store,
        d.id < (uploadOne user pid dept urg (st, pushed) f).1.nextId := by
      intro d hd
      rw [u2]
      exact u6 d hd
    obtain ⟨i1, i2, i3, i4⟩ :=
      ih (uploadOne user pid dept urg (st, pushed) f).1
        (uploadOne user pid dept urg (st, pushed) f).2 u1 hp' hpairt hml' hid'
    have hpe : ((uploadOne user pid dept urg (st, pushed) f).1,
        (uploadOne user pid dept urg (st, pushed) f).2)
        = uploadOne user pid dept urg (st, pushed) f := rfl
    rw [hpe] at i2 i3 i4
    simp only [List.foldl]
    refine ⟨i1, ?_, ?_, ?_⟩
    · rw [i2, u3, List.length_cons]
      omega
    · intro p hpp
      rw [i3 p (fun g hg => hpp g (List.mem_cons_of_mem f hg)),
        u4 p (hpp f (List.mem_cons_self f t)).1 (hpp f (List.mem_cons_self f t)).2]
    · intro f' hf'
      rcases List.mem_cons.mp hf' with hf' | hf'
      · obtain ⟨p, hpread, hploc⟩ := u5
        refine ⟨p, b, ?_, ?_⟩
        · rw [hf']
          exact hb
        · rw [i3 p ?_]
          · exact hpread
          · intro g hg
            rcases hploc with rfl | rfl
            · exact ⟨(hpairhd g hg).1,
                hml f (List.mem_cons_self f t) g (List.mem_cons_of_mem f hg)⟩
            · exact ⟨fun hc => (hml g (List.mem_cons_of_mem f hg)
                  f (List.mem_cons_self f t)) hc.symm,
                (hpairhd g hg).2⟩
      · obtain ⟨p, b', hb1, hb2⟩ := i4 f' hf'
        refine ⟨p, b', ?_, hb2⟩
        rw [← u4 f'.path (fun hc => (hpairhd f' hf').1 hc.symm)
          (hml f' (List.mem_cons_of_mem f hf') f (List.mem_cons_self f t))]
        exact hb1

/-- The upload loop under a healthy store with non-empty files: every
record created by the batch ends in a terminal status. -/
theorem uploadFold_resolved (user : User) (pid : Option Nat) (dept urg : String) :
    ∀ (files : List FileInfo) (st : PState) (pushed : List Document) (n0 : Nat),
      st.dbQ = [] →
      n0 ≤ st.nextId →
      (∀ f ∈ files, ∃ b, fsRead st.fs f.path = some b ∧ b ≠ []) →
      List.Pairwise
        (fun f g => f.path ≠ g.path ∧ mlTarget f.path ≠ mlTarget g.path) files →
      (∀ f ∈ files, ∀ g ∈ files, f.path ≠ mlTarget g.path) →
      (∀ d ∈ st.store, d.id < st.nextId) →
      (∀ d ∈ st.store, n0 ≤ d.id → terminalStatus d) →
      ∀ d ∈ (files.foldl (uploadOne user pid dept urg) (st, pushed)).1.store,
        n0 ≤ d.id → terminalStatus d := by
  intro files
  induction files with
  | nil =>
    intro st pushed n0 _ _ _ _ _ _ hterm
    exact hterm
  | cons f t ih =>
    intro st pushed n0 hdb hn0 hp hpair hml hid hterm
    obtain ⟨b, hb, hbne⟩ := hp f (List.mem_cons_self f t)
    obtain ⟨u1, u2, _, u4, _, u6, u7, u8⟩ :=
      uploadOne_healthy user pid dept urg st pushed f hdb hb hid
    have hpairt := (List.pairwise_cons.mp hpair).2
    have hpairhd := (List.pairwise_cons.mp hpair).1
    have hp' : ∀ g ∈ t, ∃ b', fsRead
        (uploadOne user pid dept urg (st, pushed) f).1.fs g.path = some b' ∧
        b' ≠ [] := by
      intro g hg
      rw [u4 g.path (fun hc => (hpairhd g hg).1 hc.symm)
        (hml g (List.mem_cons_of_mem f hg) f (List.mem_cons_self f t))]
      exact hp g (List.mem_cons_of_mem f hg)
    have hml' : ∀ a ∈ t, ∀ c ∈ t, a.path ≠ mlTarget c.path :=
      fun a ha c hc =>
        hml a (List.mem_cons_of_mem f ha) c (List.mem_cons_of_mem f hc)
    have hid' : ∀ d ∈ (uploadOne user pid dept urg (st, pushed) f).1.store,
        d.id < (uploadOne user pid dept urg (st, pushed) f).1.nextId := by
      intro d hd
      rw [u2]
      exact u6 d hd
    have hn0' : n0 ≤ (uploadOne user pid dept urg (st, pushed) f).1.nextId := by
      rw [u2]
      omega
    have hterm' : ∀ d ∈ (uploadOne user pid dept urg (st, pushed) f).1.store,
        n0 ≤ d.id → terminalStatus d := by
      intro d hd hge
      by_cases hlt : d.id < st.nextId
      · exact hterm d (u7 d hd hlt) hge
      · exact u8 hbne d hd (not_lt.mp hlt)
    simp only [List.foldl]
    exact ih (uploadOne user pid dept urg (st, pushed) f).1
      (uploadOne user pid dept urg (st, pushed) f).2 n0
      u1 hn0' hp' hpairt hml' hid' hterm'

/-- The upload loop never pushes anything when every record-store
write faults: each per-file create throws and the per-file catch
continues. -/
theorem uploadFold_allFault (user : User) (projectId : Option Nat)
    (dept urgency : String) :
    ∀ (files : List FileInfo) (st : PState) (pushed : List Document),
      st.dbQ = List.replicate files.length true →
      (files.foldl (uploadOne user projectId dept urgency) (st, pushed)).2 = pushed := by
  intro files
  induction files with
  | nil => intro st pushed _; rfl
  | cons f t ih =>
    intro st pushed h
    have hcreate :
        dbCreate st f projectId dept user.id urgency
          = ({ st with dbQ := List.replicate t.length true }, none) := by
      unfold dbCreate takeDb
      rw [h]
      rfl
    simp only [List.foldl, uploadOne, hcreate]
    exact ih _ pushed rfl

/-- C10: a syntactically valid upload (at least one file, non-empty
department) always returns 201 with success true, whatever the store
and service oracles do; and when every per-file record creation
faults, the 201 response carries an empty documents array and reports
zero documents uploaded. -/
theorem c10_upload_always_201 (user : User) (files : List FileInfo)
    (projectId : Option Nat) (dept urgency : String) (st : PState)
    (hf : files ≠ []) (hd : dept ≠ "") :
    ((uploadDocuments user files projectId dept urgency st).1.status = 201 ∧
      (uploadDocuments user files projectId dept urgency st).1.success = true) ∧
    (st.dbQ = List.replicate files.length true →
      (uploadDocuments user files projectId dept urgency st).1.documents = [] ∧
      (uploadDocuments user files projectId dept urgency st).1.message
        = "0 document(s) uploaded successfully") := by
  have hne : files.isEmpty = false := by
    cases files with
    | nil => exact absurd rfl hf
    | cons a t => rfl
  constructor
  · unfold uploadDocuments
    rw [hne]
    simp only [Bool.false_eq_true, if_false, if_neg hd]
    exact ⟨by trivial, by trivial⟩
  · intro hq
    unfold uploadDocuments
    rw [hne]
    simp only [Bool.false_eq_true, if_false, if_neg hd]
    have hfold := uploadFold_allFault user projectId dept urgency files st [] hq
    rw [hfold]
    exact ⟨by trivial, by trivial⟩

/-- C3 (amended): for a valid upload (at least one file, non-empty
department) against a healthy record store, where every file is
present on disk with non-empty bytes and the stored paths are
mutually distinct and never collide with an ml-queue target, the
response is 201 success and every record created by the request ends
in a terminal status, completed or failed — never pending. -/
theorem c3_resolved_amended (user : User) (files : List FileInfo)
    (pid : Option Nat) (dept urg : String) (st : PState)
    (hf : files ≠ []) (hd : dept ≠ "")
    (hdb : st.dbQ = [])
    (hp : ∀ f ∈ files, ∃ b, fsRead st.fs f.path = some b ∧ b ≠ [])
    (hpair : List.Pairwise
      (fun f g => f.path ≠ g.path ∧ mlTarget f.path ≠ mlTarget g.path) files)
    (hml : ∀ f ∈ files, ∀ g ∈ files, f.path ≠ mlTarget g.path)
    (hid : ∀ d ∈ st.store, d.id < st.nextId) :
    (uploadDocuments user files pid dept urg st).1.status = 201 ∧
    (uploadDocuments user files pid dept urg st).1.success = true ∧
    ∀ d ∈ (uploadDocuments user files pid dept urg st).2.store,
      st.nextId ≤ d.id → terminalStatus d := by
  have hne : files.isEmpty = false := by
    cases files with
    | nil => exact absurd rfl hf
    | cons a t => rfl
  have hfold := uploadFold_resolved user pid dept urg files st [] st.nextId hdb
    le_rfl hp hpair hml hid
    (fun d hdm hge => absurd hge (not_le.mpr (hid d hdm)))
  unfold uploadDocuments
  rw [hne]
  simp only [Bool.false_eq_true, if_false, if_neg hd]
  exact ⟨by trivial, by trivial, hfold⟩

/-- C4: with a healthy record store, whatever the classification and
summary services answer (including nothing at all — both oracle
queues may be empty or hold failures), a valid upload still returns
201 success, creates exactly one record per file, and every file's
uploaded bytes survive on disk, at the original path or at its
ml-queue target. -/
theorem c4_enrichment_failure_never_fails_upload (user : User)
    (files : List FileInfo) (pid : Option Nat) (dept urg : String) (st : PState)
    (hf : files ≠ []) (hd : dept ≠ "")
    (hdb : st.dbQ = [])
    (hp : ∀ f ∈ files, ∃ b, fsRead st.fs f.path = some b)
    (hpair : List.Pairwise
      (fun f g => f.path ≠ g.path ∧ mlTarget f.path ≠ mlTarget g.path) files)
    (hml : ∀ f ∈ files, ∀ g ∈ files, f.path ≠ mlTarget g.path)
    (hid : ∀ d ∈ st.store, d.id < st.nextId) :
    (uploadDocuments user files pid dept urg st).1.status = 201 ∧
    (uploadDocuments user files pid dept urg st).1.success = true ∧
    (uploadDocuments user files pid dept urg st).2.store.length
      = st.store.length + files.length ∧
    ∀ f ∈ files, ∃ p b, fsRead st.fs f.path = some b ∧
      fsRead (uploadDocuments user files pid dept urg st).2.fs p = some b := by
  have hne : files.isEmpty = false := by
    cases files with
    | nil => exact absurd rfl hf
    | cons a t => rfl
  obtain ⟨_, h2, _, h4⟩ :=
    uploadFold_stored user pid dept urg files st [] hdb hp hpair hml hid
  unfold uploadDocuments
  rw [hne]
  simp only [Bool.false_eq_true, if_false, if_neg hd]
  exact ⟨by trivial, by trivial, h2, h4⟩

/-- The department component of a passed filter set is honoured. -/
theorem matchesFilters_department {dep : String} {f : ListFilters}
    (hf : f.department = some dep) {d : Document}
    (h : matchesFilters f d = true) : d.department = dep := by
  unfold matchesFilters at h
  rw [hf] at h
  simp only [Bool.and_eq_true, decide_eq_true_eq] at h
  exact h.1.1.1

/-- For a non-admin caller the effective department filter is the
caller's own department. -/
theorem effectiveDepartment_nonAdmin {user : User} (h : user.role ≠ "admin")
    (qDept : Option String) :
    effectiveDepartment user qDept = some user.department := by
  unfold effectiveDepartment
  rw [if_pos h]

/-- C5: for a non-admin user, every record the list operation returns,
every result the search operation returns, and every record the
single-record fetch returns belongs to the user's own department; a
fetch of an existing record of another department is refused with the
authorization-denied (403) outcome rather than returning the
record. -/
theorem c5_department_isolation (user : User) (store : List Document)
    (qDept : Option String) (qProj : Option Nat) (qUrg : Option String)
    (qStatus : Option Status) (q : String) (qType qUrg2 : Option String)
    (page limit page2 limit2 : Nat) (id : Nat)
    (hrole : user.role ≠ "admin") :
    (∀ d ∈ (getDocuments user qDept qProj qUrg qStatus page limit store).documents,
        d.department = user.department) ∧
    (∀ p ∈ (searchDocuments user q qDept qType qUrg2 page2 limit2 store).results,
        p.1.department = user.department) ∧
    (∀ d, getDocumentById user id store = GetByIdResult.found d →
        d.department = user.department) ∧
    (∀ d, storeFind store id = some d → d.department ≠ user.department →
        getDocumentById user id store = GetByIdResult.denied) := by
  refine ⟨?_, ?_, ?_, ?_⟩
  · intro d hd
    unfold getDocuments storeGetDocuments at hd
    simp only at hd
    have hmem : d ∈ store.filter (matchesFilters
        { department := effectiveDepartment user qDept, project_id := qProj,
          urgency_level := qUrg, processing_status := qStatus }) :=
      List.mem_of_mem_drop (List.mem_of_mem_take hd)
    have hmatch := (List.mem_filter.mp hmem).2
    exact matchesFilters_department
      (by rw [effectiveDepartment_nonAdmin hrole]) hmatch
  · intro p hp
    unfold searchDocuments at hp
    by_cases hq : sTrim q = ""
    · rw [if_pos hq] at hp
      simp at hp
    · rw [if_neg hq] at hp
      simp only at hp
      unfold searchEnhance at hp
      rw [List.mem_insertionSort] at hp
      obtain ⟨d, hd, rfl⟩ := List.mem_map.mp hp
      unfold storeSearchDocuments at hd
      simp only at hd
      have hmem := List.mem_of_mem_drop (List.mem_of_mem_take hd)
      have hmatch := (List.mem_filter.mp hmem).2
      rw [Bool.and_eq_true] at hmatch
      exact matchesFilters_department
        (by rw [effectiveDepartment_nonAdmin hrole]) hmatch.1
  · intro d hfound
    unfold getDocumentById at hfound
    cases hfind : storeFind store id with
    | none =>
      rw [hfind] at hfound
      exact absurd hfound (by simp)
    | some d0 =>
      rw [hfind] at hfound
      simp only at hfound
      by_cases hdep : d0.department = user.department
      · rw [if_neg (fun hc => hc.2 hdep)] at hfound
        cases hfound
        exact hdep
      · rw [if_pos ⟨hrole, hdep⟩] at hfound
        exact absurd hfound (by simp)
  · intro d hfind hdep
    unfold getDocumentById
    rw [hfind]
    simp only
    rw [if_pos ⟨hrole, hdep⟩]

/-- C8, amended: deleting a record whose backing file is already
missing still deletes the database record and reports success, but the
missing-file condition is not logged — the handler only emits its
ordinary info-level success line. -/
theorem c8_delete_missing_file_amended (user : User) (id : Nat) (fs : FS)
    (store : List Document) (d : Document)
    (hfind : storeFind store id = some d)
    (hauth : user.role = "admin" ∨ d.uploaded_by = user.id)
    (hmiss : fsExists fs d.file_path = false) :
    (deleteDocument user id fs store).success = true ∧
    (deleteDocument user id fs store).status = 200 ∧
    storeFind (deleteDocument user id fs store).store id = none ∧
    (deleteDocument user id fs store).logs.all
      (fun e => e.level = LogLevel.info) = true := by
  have hnot : ¬ (user.role ≠ "admin" ∧ d.uploaded_by ≠ user.id) := by
    rcases hauth with h | h
    · intro hc; exact hc.1 h
    · intro hc; exact hc.2 h
  unfold deleteDocument
  rw [hfind]
  simp only
  rw [if_neg hnot, hmiss]
  simp only [Bool.false_eq_true, if_false]
  refine ⟨by trivial, by trivial, ?_, by trivial⟩
  apply List.find?_eq_none.mpr
  intro x hx
  have := (List.mem_filter.mp hx).2
  simpa using this

/-- A conditional-accumulation fold counts matches. -/
theorem foldl_count_add {α : Type} (p : α → Bool) (k : Nat) (l : List α) :
    ∀ init : Nat,
      l.foldl (fun acc w => if p w then acc + k else acc) init
        = init + k * l.countP p := by
  induction l with
  | nil => simp
  | cons a t ih =>
    intro init
    simp only [List.foldl, List.countP_cons]
    by_cases h : p a
    · rw [if_pos h, ih, if_pos h]
      ring
    · rw [if_neg h, ih, if_neg h]
      ring

/-- A nested conditional-accumulation fold counts matching pairs. -/
theorem foldl_nested_count {α β : Type} (P : α → β → Bool) (k : Nat)
    (kws : List β) (l : List α) :
    ∀ init : Nat,
      l.foldl (fun acc w =>
          kws.foldl (fun a kw => if P w kw then a + k else a) acc) init
        = init + k * (l.map (fun w => kws.countP (P w))).sum := by
  induction l with
  | nil => simp
  | cons a t ih =>
    intro init
    simp only [List.foldl, List.map_cons, List.sum_cons]
    rw [foldl_count_add (P a) k kws init, ih]
    ring

/-- A fold accumulating k times a per-element value sums it. -/
theorem foldl_add_sum {α : Type} (g : α → Nat) (k : Nat) (l : List α) :
    ∀ init : Nat,
      l.foldl (fun acc w => acc + k * g w) init
        = init + k * (l.map g).sum := by
  induction l with
  | nil => simp
  | cons a t ih =>
    intro init
    simp only [List.foldl, List.map_cons, List.sum_cons]
    rw [ih]
    ring

/-- Every token the query splitter produces is non-empty. -/
theorem jsSplitWS_ne_empty {s w : String} (h : w ∈ jsSplitWS s) : w ≠ "" := by
  unfold jsSplitWS at h
  have := (List.mem_filter.mp h).2
  simpa using this

/-- The empty string contains no non-empty substring. -/
theorem sIncludes_empty_hay {w : String} (h : w ≠ "") :
    sIncludes "" w = false := by
  unfold sIncludes infixB
  cases hw : w.toList with
  | nil => exact absurd (String.ext hw) h
  | cons c cs => simp [hw]

/-- C7: the relevance score the search handler computes is exactly the
spec's weighted sum, and the returned results are a permutation of the
scored store page, sorted descending by score with equal-score pairs
kept in store-native order (stable sort). -/
theorem c7_relevance_score_and_stable_sort (q : String) (docs : List Document)
    (_hq : sTrim q ≠ "") :
    (∀ d, calculateRelevanceScore q d = specRelevanceScore q d) ∧
    List.Perm (searchEnhance q docs)
      (docs.map (fun d => (d, calculateRelevanceScore q d))) ∧
    (searchEnhance q docs).Sorted byScoreDesc ∧
    (∀ x y, List.Sublist [x, y] (docs.map (fun d => (d, calculateRelevanceScore q d))) →
      x.2 = y.2 → List.Sublist [x, y] (searchEnhance q docs)) := by
  refine ⟨?_, ?_, ?_, ?_⟩
  · intro d
    have hzero : ∀ l : List String, (l.map (fun _ => (0 : Nat))).sum = 0 := by
      intro l
      induction l with
      | nil => rfl
      | cons a t ih => simp [ih]
    have hz2 : (jsSplitWS (sLower q)).countP (sIncludes (sLower "")) = 0 := by
      apply List.countP_eq_zero.mpr
      intro w hw
      have hne := jsSplitWS_ne_empty hw
      have he : sLower "" = "" := rfl
      rw [he, sIncludes_empty_hay hne]
      simp
    unfold calculateRelevanceScore specRelevanceScore
    simp only
    cases hsum : d.ai_summary with
    | none =>
      cases hkw : d.ai_keywords with
      | none =>
        simp only [foldl_count_add, hzero]
        by_cases hdep : sIncludes (sLower d.department) (sLower q) = true <;>
          simp only [hdep, if_true, if_false, Bool.false_eq_true] <;> omega
      | some kws =>
        simp only [foldl_count_add, foldl_add_sum]
        by_cases hdep : sIncludes (sLower d.department) (sLower q) = true <;>
          simp only [hdep, if_true, if_false, Bool.false_eq_true] <;> omega
    | some s =>
      cases hkw : d.ai_keywords with
      | none =>
        simp only
        by_cases hs : s = ""
        · subst hs
          rw [if_pos rfl]
          simp only [foldl_count_add, hzero, hz2]
          by_cases hdep : sIncludes (sLower d.department) (sLower q) = true <;>
            simp only [hdep, if_true, if_false, Bool.false_eq_true] <;> omega
        · rw [if_neg hs]
          simp only [foldl_count_add, hzero]
          by_cases hdep : sIncludes (sLower d.department) (sLower q) = true <;>
            simp only [hdep, if_true, if_false, Bool.false_eq_true] <;> omega
      | some kws =>
        simp only
        by_cases hs : s = ""
        · subst hs
          rw [if_pos rfl]
          simp only [foldl_count_add, foldl_add_sum, hz2]
          by_cases hdep : sIncludes (sLower d.department) (sLower q) = true <;>
            simp only [hdep, if_true, if_false, Bool.false_eq_true] <;> omega
        · rw [if_neg hs]
          simp only [foldl_count_add, foldl_add_sum]
          by_cases hdep : sIncludes (sLower d.department) (sLower q) = true <;>
            simp only [hdep, if_true, if_false, Bool.false_eq_true] <;> omega
  · exact List.perm_insertionSort byScoreDesc _
  · exact List.sorted_insertionSort byScoreDesc _
  · intro x y hsub heq
    exact List.pair_sublist_insertionSort heq.ge hsub

/-- C7 witness: a concrete non-empty query over the two-department
store. -/
theorem c7_witness :
    sTrim "safety" ≠ "" ∧ (searchEnhance "safety" twoDeptStore).Sorted byScoreDesc :=
  ⟨by decide,
    (c7_relevance_score_and_stable_sort "safety" twoDeptStore (by decide)).2.2.1⟩

/-- C8 counterexample: deleting a record whose backing file is already
missing from disk deletes the record and reports success, but emits no
anomaly log line at all — only the ordinary info-level success line —
so the missing-file condition is silently swallowed, contrary to the
claim. -/
theorem c8_counterexample :
    fsExists [] orphanedDoc.file_path = false ∧
    (deleteDocument safetyUser 1 [] [orphanedDoc]).success = true ∧
    (deleteDocument safetyUser 1 [] [orphanedDoc]).status = 200 ∧
    (deleteDocument safetyUser 1 [] [orphanedDoc]).store = [] ∧
    (deleteDocument safetyUser 1 [] [orphanedDoc]).logs.all
        (fun e => e.level = LogLevel.info) = true := by
  decide

/-- C3 amended witness: the concrete one-byte safety upload against
the fresh healthy state resolves its record to a terminal status
behind the 201 response. -/
theorem c3_amended_witness :
    (uploadDocuments safetyUser [safetyFile] none "SAFETY" "routine"
        safetyState).1.status = 201 ∧
    (uploadDocuments safetyUser [safetyFile] none "SAFETY" "routine"
        safetyState).1.success = true ∧
    ∀ d ∈ (uploadDocuments safetyUser [safetyFile] none "SAFETY" "routine"
        safetyState).2.store,
      safetyState.nextId ≤ d.id → terminalStatus d :=
  c3_resolved_amended safetyUser [safetyFile] none "SAFETY" "routine" safetyState
    (by simp) (by decide) rfl
    (by
      intro f hf
      rw [List.mem_singleton] at hf
      subst hf
      exact ⟨[7], by decide, by decide⟩)
    (by simp) (by decide) (by simp [safetyState])

/-- C4 witness: the concrete safety upload with the AI service
unreachable (both oracle queues empty) still succeeds, stores one row,
and keeps the uploaded bytes on disk. -/
theorem c4_witness :
    (uploadDocuments safetyUser [safetyFile] none "SAFETY" "routine"
        safetyState).1.status = 201 ∧
    (uploadDocuments safetyUser [safetyFile] none "SAFETY" "routine"
        safetyState).1.success = true ∧
    (uploadDocuments safetyUser [safetyFile] none "SAFETY" "routine"
        safetyState).2.store.length
      = safetyState.store.length + [safetyFile].length ∧
    ∀ f ∈ [safetyFile], ∃ p b, fsRead safetyState.fs f.path = some b ∧
      fsRead (uploadDocuments safetyUser [safetyFile] none "SAFETY" "routine"
        safetyState).2.fs p = some b :=
  c4_enrichment_failure_never_fails_upload safetyUser [safetyFile] none
    "SAFETY" "routine" safetyState
    (by simp) (by decide) rfl
    (by
      intro f hf
      rw [List.mem_singleton] at hf
      subst hf
      exact ⟨[7], by decide⟩)
    (by simp) (by decide) (by simp [safetyState])

/-- C5 witness: the non-admin SAFETY engineer against the
two-department store, with a concrete list, search, and a fetch of the
existing FINANCE record, which is denied. -/
theorem c5_witness :
    (∀ d ∈ (getDocuments nonAdminUser none none none none 1 20
        twoDeptStore).documents,
      d.department = nonAdminUser.department) ∧
    (∀ p ∈ (searchDocuments nonAdminUser "safety" none none none 1 20
        twoDeptStore).results,
      p.1.department = nonAdminUser.department) ∧
    (∀ d, getDocumentById nonAdminUser 2 twoDeptStore = GetByIdResult.found d →
      d.department = nonAdminUser.department) ∧
    storeFind twoDeptStore 2 = some financeDoc ∧
    financeDoc.department ≠ nonAdminUser.department ∧
    getDocumentById nonAdminUser 2 twoDeptStore = GetByIdResult.denied :=
  ⟨(c5_department_isolation nonAdminUser twoDeptStore none none none none
      "safety" none none 1 20 1 20 2 (by decide)).1,
    (c5_department_isolation nonAdminUser twoDeptStore none none none none
      "safety" none none 1 20 1 20 2 (by decide)).2.1,
    (c5_department_isolation nonAdminUser twoDeptStore none none none none
      "safety" none none 1 20 1 20 2 (by decide)).2.2.1,
    by decide, by decide,
    (c5_department_isolation nonAdminUser twoDeptStore none none none none
      "safety" none none 1 20 1 20 2 (by decide)).2.2.2 financeDoc
      (by decide) (by decide)⟩

/-- C8 amended witness: the concrete orphaned row is deleted with a 200
success and only the ordinary info-level log line. -/
theorem c8_amended_witness :
    (deleteDocument safetyUser 1 [] [orphanedDoc]).success = true ∧
    (deleteDocument safetyUser 1 [] [orphanedDoc]).status = 200 ∧
    storeFind (deleteDocument safetyUser 1 [] [orphanedDoc]).store 1 = none ∧
    (deleteDocument safetyUser 1 [] [orphanedDoc]).logs.all
      (fun e => e.level = LogLevel.info) = true :=
  c8_delete_missing_file_amended safetyUser 1 [] [orphanedDoc] orphanedDoc
    (by decide) (Or.inr (by decide)) (by decide)

/-- C9 witness: after the concrete safety upload every stored record's
confidence columns are inside the closed unit interval. -/
theorem c9_witness :
    safetyState.dbQ = [] ∧
    ∀ d ∈ (uploadDocuments safetyUser [safetyFile] none "SAFETY" "routine"
        safetyState).2.store,
      confFieldsOK d :=
  ⟨rfl, c9_confidence_in_unit_interval safetyUser [safetyFile] none "SAFETY"
    "routine" safetyState (by simp [safetyState])⟩

/-- C10 witness: the concrete safety upload against the all-faulting
store still answers 201; with the store faulting on the single create,
the response carries no documents and reports zero uploads. -/
theorem c10_witness :
    ((uploadDocuments safetyUser [safetyFile] none "SAFETY" ""
        allFaultState).1.status = 201 ∧
      (uploadDocuments safetyUser [safetyFile] none "SAFETY" ""
        allFaultState).1.success = true) ∧
    (allFaultState.dbQ = List.replicate [safetyFile].length true →
      (uploadDocuments safetyUser [safetyFile] none "SAFETY" ""
        allFaultState).1.documents = [] ∧
      (uploadDocuments safetyUser [safetyFile] none "SAFETY" ""
        allFaultState).1.message = "0 document(s) uploaded successfully") :=
  c10_upload_always_201 safetyUser [safetyFile] none "SAFETY" "" allFaultState
    (by simp) (by decide)

end Kmrl
